import Mathlib

/-!
# Verification of the draftly-be email synchronization core

A shallow embedding of the email synchronization and thread-consistency
layer of the repository:

* `src/repositories/EmailRepository.ts` (threads, messages, idempotent
  batch upserts with per-item error capture),
* `src/integrations/GmailIntegration.ts` (token validation, message
  parsing, multipart body extraction, reply construction), and
* `src/services/EmailService.ts` (the sync orchestrator:
  `syncUserEmails`, `getThread`, `replyToThread`, token policies).

External collaborators (the Prisma storage backend, the googleapis
client, Node's `Buffer` base64 decoding, JS `Date` parsing) are modelled
as explicit oracle parameters; the TypeScript control flow, JS string
truthiness (`""` is falsy) and JS `||` / `??` semantics are translated
faithfully.  Machine-level concerns (async interleaving) are modelled by
the deterministic sequentialization of each operation's `await` chain.
-/

deriving instance DecidableEq for Except

namespace Draftly

/-! ## JavaScript string and option primitives

JS strings are `String`; `string | undefined` is `Option String`.
Truthiness of a string is "nonempty". -/

/-- JS truthiness of a string: `""` is falsy, everything else truthy. -/
def jsTruthy (s : String) : Bool := !(s == "")

/-- JS truthiness of a `string | undefined` value. -/
def optTruthy : Option String → Bool
  | none => false
  | some s => jsTruthy s

/-- JS `a || b` on strings: `b` when `a` is falsy. -/
def jsOr (a b : String) : String := if jsTruthy a then a else b

/-- JS `a || b` where `a : string | undefined`. -/
def jsOrOpt (a : Option String) (b : String) : String :=
  match a with
  | none => b
  | some s => jsOr s b

/-- Lower-casing (models `String.prototype.toLowerCase` / the `i` regex
flag for the ASCII patterns the code matches against). -/
def lowerStr (s : String) : String := ⟨s.data.map Char.toLower⟩

/-- `isPre pat l`: `pat` occurs at the head of `l`. -/
def isPre : List Char → List Char → Bool
  | [], _ => true
  | _ :: _, [] => false
  | a :: as, b :: bs => a == b && isPre as bs

/-- `subOccurs pat l`: `pat` occurs as a contiguous run somewhere in `l`. -/
def subOccurs (pat : List Char) : List Char → Bool
  | [] => isPre pat []
  | c :: rest => isPre pat (c :: rest) || subOccurs pat rest

/-- `String.prototype.includes` (substring occurrence). -/
def containsSub (s pat : String) : Bool := subOccurs pat.data s.data

/-- `String.prototype.startsWith`. -/
def startsWithB (s pre : String) : Bool := isPre pre.data s.data

/-- The whitespace class matched by the regex `\s` (ASCII part; the code
only ever splits header values on it). -/
def isWs (c : Char) : Bool :=
  c == ' ' || c == '\t' || c == '\n' || c == '\r' || c == '\x0c' || c == '\x0b'

/-- Maximal runs of non-whitespace characters, in order. -/
def wsRuns : List Char → List Char → List String
  | [], acc => if acc.isEmpty then [] else [⟨acc.reverse⟩]
  | c :: rest, acc =>
    if isWs c then
      if acc.isEmpty then wsRuns rest [] else ⟨acc.reverse⟩ :: wsRuns rest []
    else wsRuns rest (c :: acc)

/-- `s.split(/\s+/)` (JS semantics): the maximal non-whitespace runs,
with a leading empty string when `s` starts with whitespace, a trailing
empty string when it ends with whitespace, and `[""]` for the empty
string.  The caller below immediately filters out falsy entries, so only
the run list matters downstream. -/
def splitWsJs (s : String) : List String :=
  if s == "" then [""]
  else
    (if isWs (s.data.headD 'a') then [""] else []) ++ wsRuns s.data [] ++
      (if isWs (s.data.getLastD 'a') then [""] else [])

/-- First match of the regex `<([^>]+)>`: scan left to right for a `<`
followed by at least one non-`>` character and a closing `>`; return the
captured group. -/
def firstAngle : List Char → Option String
  | [] => none
  | c :: rest =>
    if c == '<' then
      let inner := rest.takeWhile (fun d => !(d == '>'))
      match rest.drop inner.length with
      | '>' :: _ => if inner.isEmpty then firstAngle rest else some ⟨inner⟩
      | _ => firstAngle rest
    else firstAngle rest

/-- `EmailService.extractEmailAddress`: the first `<...>`-bracketed token,
else the raw value. -/
def extractEmailAddress (value : String) : String :=
  match firstAngle value.data with
  | some inner => inner
  | none => value

/-! ## Stable sorting

JS `Array.prototype.sort` is required to be stable (ES2019); both
`EmailRepository.mapToEmailThread` and `EmailService.replyToThread` sort
with a numeric ascending comparator.  We embed that as the standard
stable insertion sort. -/

/-- Insert `a` before the first element it is `le`-below (stable). -/
def ordInsert {α : Type} (le : α → α → Bool) (a : α) : List α → List α
  | [] => [a]
  | b :: l => if le a b then a :: b :: l else b :: ordInsert le a l

/-- Stable sort by `le` (the embedding of JS `Array.prototype.sort` with
an ascending numeric comparator). -/
def stableSort {α : Type} (le : α → α → Bool) : List α → List α
  | [] => []
  | a :: l => ordInsert le a (stableSort le l)

/-! ## Data model

The Prisma rows (`Thread`, `Email`, `User`) and the mapped API shapes
(`EmailThread`, `EmailMessage`) from `src/types`.  Database ids are
`Nat` generated from a store counter; timestamps are `Nat`
(milliseconds-since-epoch stand-in). -/

structure AuthTokens where
  accessToken : Option String
  refreshToken : Option String
deriving DecidableEq

/-- A raw message as produced by `GmailIntegration.parseGmailMessage`
(`GmailMessage` in `src/types`). -/
structure GmailMessage where
  id : String
  threadId : String
  subject : String
  fromAddr : String
  toAddr : String
  date : String
  snippet : String
  body : Option String
  htmlBody : Option String
  isUnread : Bool
  messageIdHeader : Option String
  references : Option String
deriving DecidableEq

/-- A `Thread` row. -/
structure ThreadRecord where
  id : Nat
  userId : String
  gmailId : String
  subject : String
  createdAt : Nat
  updatedAt : Nat
deriving DecidableEq

/-- An `Email` row. -/
structure EmailRecord where
  id : Nat
  gmailId : String
  threadId : Nat
  userId : String
  fromAddr : String
  toAddr : String
  subject : String
  body : String
  htmlBody : Option String
  timestamp : Nat
  isUnread : Bool
deriving DecidableEq

/-- A `User` row (the slice this core reads: identity and the stored,
decrypted-at-read token pair; `tryEncrypt`/`tryDecrypt` are an opaque
inverse pair and are modelled as the identity). -/
structure UserRecord where
  id : String
  firebaseUid : String
  accessToken : Option String
  refreshToken : Option String
deriving DecidableEq

/-- The relational store behind the Prisma client. -/
structure Store where
  users : List UserRecord
  threads : List ThreadRecord
  emails : List EmailRecord
  nextId : Nat
deriving DecidableEq

/-- Mapped message shape (`EmailMessage` in `src/types`). -/
structure EmailMessage where
  id : Nat
  gmailId : String
  threadId : Nat
  fromAddr : String
  toAddr : String
  subject : String
  body : String
  htmlBody : Option String
  timestamp : Nat
  isUnread : Bool
deriving DecidableEq

/-- Mapped thread shape (`EmailThread` in `src/types`). -/
structure EmailThread where
  id : Nat
  gmailId : String
  subject : String
  messages : List EmailMessage
  createdAt : Nat
  updatedAt : Nat
deriving DecidableEq

/-! ## EmailRepository -/

/-- `EmailRepository.mapToEmailMessage`. -/
def mapToEmailMessage (r : EmailRecord) : EmailMessage :=
  { id := r.id, gmailId := r.gmailId, threadId := r.threadId,
    fromAddr := r.fromAddr, toAddr := r.toAddr, subject := r.subject,
    body := r.body, htmlBody := r.htmlBody, timestamp := r.timestamp,
    isUnread := r.isUnread }

/-- The ascending-timestamp comparator of `mapToEmailThread`. -/
def tsLe (a b : EmailMessage) : Bool := a.timestamp ≤ b.timestamp

/-- `EmailRepository.mapToEmailThread`: map the rows and sort the result
chronologically (`emails.sort((a, b) => a.timestamp - b.timestamp)`). -/
def mapToEmailThread (t : ThreadRecord) (emails : List EmailRecord) : EmailThread :=
  { id := t.id, gmailId := t.gmailId, subject := t.subject,
    messages := stableSort tsLe (emails.map mapToEmailMessage),
    createdAt := t.createdAt, updatedAt := t.updatedAt }

/-- The `include: { emails: ... }` clause: the thread's email rows. -/
def threadEmails (s : Store) (tid : Nat) : List EmailRecord :=
  s.emails.filter (fun r => r.threadId == tid)

/-- `EmailRepository.findThreadById`. -/
def findThreadById (s : Store) (id : Nat) : Option EmailThread :=
  (s.threads.find? (fun t => t.id == id)).map
    (fun t => mapToEmailThread t (threadEmails s t.id))

/-- `EmailRepository.findThreadByGmailId` (first thread of the user with
that remote thread id). -/
def findThreadByGmailId (s : Store) (userId gmailId : String) : Option EmailThread :=
  (s.threads.find? (fun t => t.userId == userId && t.gmailId == gmailId)).map
    (fun t => mapToEmailThread t (threadEmails s t.id))

/-- `EmailRepository.createThread` (`now` models Prisma's
`@default(now())` timestamps). -/
def createThread (s : Store) (userId gmailId subject : String) (now : Nat) :
    EmailThread × Store :=
  let t : ThreadRecord :=
    { id := s.nextId, userId := userId, gmailId := gmailId, subject := subject,
      createdAt := now, updatedAt := now }
  (mapToEmailThread t [],
    { s with threads := s.threads ++ [t], nextId := s.nextId + 1 })

/-- `EmailRepository.ensureThread`: find by `(userId, gmailId)`, else
create with the fallback subject. -/
def ensureThread (s : Store) (userId gmailId subject : String) (now : Nat) :
    EmailThread × Store :=
  match findThreadByGmailId s userId gmailId with
  | some existing => (existing, s)
  | none => createThread s userId gmailId subject now

/-- `EmailUpsertInput` from `EmailRepository`. -/
structure EmailUpsertInput where
  gmailId : String
  threadId : Nat
  userId : String
  fromAddr : String
  toAddr : String
  subject : String
  body : String
  htmlBody : Option String
  timestamp : Nat
  isUnread : Bool
deriving DecidableEq

/-- `EmailUpsertResult` from `EmailRepository`. -/
structure EmailUpsertResult where
  gmailId : String
  success : Bool
  created : Bool
  email : Option EmailMessage
  error : Option String
deriving DecidableEq

/-- An entry of the batch `errors` list. -/
structure BatchError where
  gmailId : String
  error : String
deriving DecidableEq

/-- `EmailBatchUpsertResult` from `EmailRepository`. -/
structure EmailBatchUpsertResult where
  results : List EmailUpsertResult
  createdCount : Nat
  errors : List BatchError
deriving DecidableEq

/-- Overwrite every mutable field of a row with the input's data
(the `data:` object of the `client.email.update` call; `id` and
`gmailId` are not in that object and are preserved). -/
def applyData (r : EmailRecord) (e : EmailUpsertInput) : EmailRecord :=
  { r with
    threadId := e.threadId,
    userId := e.userId,
    fromAddr := e.fromAddr,
    toAddr := e.toAddr,
    subject := e.subject,
    body := e.body,
    htmlBody := e.htmlBody,
    timestamp := e.timestamp,
    isUnread := e.isUnread }

/-- The row inserted by `client.email.create`. -/
def newRecord (id : Nat) (e : EmailUpsertInput) : EmailRecord :=
  { id := id, gmailId := e.gmailId, threadId := e.threadId,
    userId := e.userId, fromAddr := e.fromAddr, toAddr := e.toAddr,
    subject := e.subject, body := e.body, htmlBody := e.htmlBody,
    timestamp := e.timestamp, isUnread := e.isUnread }

/-- The storage port's failure oracle: `reject e = some msg` models the
storage tier throwing on input `e` (e.g. a malformed input violating a
constraint enforced by the backend).  `upsertEmailInternal` wraps its
`findFirst`/`update`/`create` calls in one `try/catch`, so a thrown
storage error surfaces as a per-item failure result. -/
def RejectOracle : Type := EmailUpsertInput → Option String

/-- `EmailRepository.upsertEmailInternal`: look up by
`(gmailId, userId)`; update the found row in place, else insert and mark
`created`; catch any storage error into a failure result (the function
itself never throws). -/
def upsertEmailInternal (reject : RejectOracle) (s : Store) (e : EmailUpsertInput) :
    EmailUpsertResult × Store :=
  match reject e with
  | some msg =>
    ({ gmailId := e.gmailId, success := false, created := false,
       email := none, error := some msg }, s)
  | none =>
    match s.emails.find? (fun r => r.gmailId == e.gmailId && r.userId == e.userId) with
    | some existing =>
      let updated := applyData existing e
      let rows := s.emails.map (fun r => if r.id == existing.id then applyData r e else r)
      ({ gmailId := e.gmailId, success := true, created := false,
         email := some (mapToEmailMessage updated), error := none },
       { s with emails := rows })
    | none =>
      let r := newRecord s.nextId e
      ({ gmailId := e.gmailId, success := true, created := true,
         email := some (mapToEmailMessage r), error := none },
       { s with emails := s.emails ++ [r], nextId := s.nextId + 1 })

/-- The per-item pass of `upsertEmailsBatch` (the `Promise.all` over
`upsertEmailInternal`, sequentialized in input order: with one database
connection inside one `$transaction` the queries serialize; no internal
upsert ever throws, so the transaction always commits). -/
def upsertBatchGo (reject : RejectOracle) (s : Store) :
    List EmailUpsertInput → List EmailUpsertResult × Store
  | [] => ([], s)
  | e :: rest =>
    let step := upsertEmailInternal reject s e
    let rest1 := upsertBatchGo reject step.2 rest
    (step.1 :: rest1.1, rest1.2)

/-- `EmailRepository.upsertEmailsBatch`: run every input, then aggregate
the failures and the created count. -/
def upsertEmailsBatch (reject : RejectOracle) (s : Store)
    (emails : List EmailUpsertInput) : EmailBatchUpsertResult × Store :=
  if emails.isEmpty then
    ({ results := [], createdCount := 0, errors := [] }, s)
  else
    let run := upsertBatchGo reject s emails
    let results := run.1
    ({ results := results,
       createdCount := (results.filter (fun r => r.success && r.created)).length,
       errors := (results.filter (fun r => !r.success)).map
         (fun r => { gmailId := r.gmailId, error := r.error.getD "Unknown upsert error" }) },
     run.2)

/-! ## GmailIntegration: multipart body extraction

`gmail_v1.Schema$MessagePart` is a tagged recursive payload tree.
`decode` stands for Node's `Buffer.from(b64, "base64").toString("utf-8")`
(an external library primitive), passed as an explicit parameter. -/

/-- A Gmail message part: mime type, optional inline body payload, and
sub-parts (an absent `parts` array and an empty one traverse alike). -/
inductive Part where
  | node (mimeType : Option String) (bodyData : Option String) (parts : List Part)

/-- The `{ html?, text? }` accumulator of `extractBodies`. -/
structure Bodies where
  html : Option String
  text : Option String
deriving DecidableEq

/-- One `visit` step on a part's own mime/body: claim the `html` slot if
the mime type contains `"text/html"`, the payload is truthy and the slot
is still falsy; then likewise for `text` with `"text/plain"`. -/
def partStep (decode : String → String) (st : Bodies)
    (mime : Option String) (bdata : Option String) : Bodies :=
  let st1 :=
    match mime, bdata with
    | some m, some d =>
      if containsSub m "text/html" && jsTruthy d && !(optTruthy st.html) then
        { st with html := some (decode d) }
      else st
    | _, _ => st
  match mime, bdata with
  | some m, some d =>
    if containsSub m "text/plain" && jsTruthy d && !(optTruthy st1.text) then
      { st1 with text := some (decode d) }
    else st1
  | _, _ => st1

mutual

/-- The recursive `visit` of `extractBodies`: check the part itself, then
its sub-parts depth-first, left to right (outer before inner). -/
def visitPart (decode : String → String) (st : Bodies) : Part → Bodies
  | .node mime bdata children =>
    visitParts decode (partStep decode st mime bdata) children

/-- Visit a list of sibling parts in order. -/
def visitParts (decode : String → String) (st : Bodies) : List Part → Bodies
  | [] => st
  | p :: ps => visitParts decode (visitPart decode st p) ps

end

/-- `GmailIntegration.extractBodies`: a payload with truthy inline body
data is single-part (assigned by mime type, default `"text/plain"`);
otherwise the sub-part tree is traversed. -/
def extractBodies (decode : String → String) : Option Part → Bodies
  | none => { html := none, text := none }
  | some (.node mime bdata children) =>
    match bdata with
    | some d =>
      if jsTruthy d then
        let m := jsOr (mime.getD "") "text/plain"
        if containsSub m "html" then { html := some (decode d), text := none }
        else { html := none, text := some (decode d) }
      else visitParts decode { html := none, text := none } children
    | none => visitParts decode { html := none, text := none } children

/-- The canonical body of `parseGmailMessage`:
`text || html || snippet || ""` (JS truthiness). -/
def canonicalBody (b : Bodies) (snippet : String) : String :=
  jsOr (b.text.getD "") (jsOr (b.html.getD "") (jsOr snippet ""))

/-! ## GmailIntegration: token validation

The googleapis OAuth client is external and stateful; its observable
interactions during one `validateTokens` call are an oracle:
the outcome of `oauth2Client.getAccessToken()` (the refresh attempt made
when only a refresh token is stored), the outcome of the
`users.getProfile` probe, and the client's credential state after the
probe (read back by `getRefreshedTokens`). -/

/-- An error thrown by a googleapis call: optional HTTP-like `code`
plus message. -/
structure GCallError where
  code : Option Nat
  message : String
deriving DecidableEq

/-- `error.code === 401 || error.code === 403`. -/
def isAuthCode (e : GCallError) : Bool :=
  e.code == some 401 || e.code == some 403

/-- `AppError` from `src/utils/errors.ts`. -/
structure AppError where
  message : String
  statusCode : Nat
  code : Option String
deriving DecidableEq

/-- `ExternalServiceError` (message `"<service> error: <message>"`,
status 503). -/
def externalServiceError (service msg : String) : AppError :=
  { message := service ++ " error: " ++ msg, statusCode := 503,
    code := some "EXTERNAL_SERVICE_ERROR" }

/-- The `{ valid, refreshedTokens? }` result of `validateTokens`. -/
structure TokenValidation where
  valid : Bool
  refreshedTokens : Option AuthTokens
deriving DecidableEq

/-- Oracle for the external calls one `validateTokens` run makes. -/
structure OAuthEnv where
  /-- `oauth2Client.getAccessToken()`: may throw, or succeed with an
  optional token value. -/
  refreshAccessToken : Except GCallError (Option String)
  /-- `gmail.users.getProfile({ userId: "me" })`. -/
  profile : Except GCallError Unit
  /-- `oauth2Client.credentials.access_token` after the profile call. -/
  credAfterAccess : Option String
  /-- `oauth2Client.credentials.refresh_token` after the profile call. -/
  credAfterRefresh : Option String

/-- `GmailIntegration.getRefreshedTokens` applied to the client state
after the probe: `null` when no access token is set; falsy refresh token
becomes `undefined`. -/
def getRefreshedTokensModel (env : OAuthEnv) : Option AuthTokens :=
  match env.credAfterAccess with
  | none => none
  | some a =>
    if jsTruthy a then
      some { accessToken := some a,
             refreshToken := if optTruthy env.credAfterRefresh then env.credAfterRefresh else none }
    else none

/-- Map a caught googleapis error the way the `catch` block of
`validateTokens` does: 401/403 → `{ valid: false }`, anything else →
throw `ExternalServiceError("Gmail", "Token validation failed: ...")`. -/
def validateCatch (err : GCallError) : Except AppError TokenValidation :=
  if isAuthCode err then .ok { valid := false, refreshedTokens := none }
  else .error (externalServiceError "Gmail" ("Token validation failed: " ++ err.message))

/-- Outcome of the refresh-only preamble of `validateTokens`: either the
whole call finishes (early return or throw), or execution continues with
the `refreshedTokens` candidate accumulated so far. -/
inductive RefreshStep where
  | done (r : Except AppError TokenValidation)
  | go (refreshed0 : Option AuthTokens)

/-- The `if (!tokens.accessToken && tokens.refreshToken)` preamble: try
`getAccessToken()`; a missing result token is an early
`{ valid: false }`; a thrown error goes through the shared `catch`. -/
def refreshPreamble (env : OAuthEnv) (tokens : AuthTokens) : RefreshStep :=
  if !(optTruthy tokens.accessToken) && optTruthy tokens.refreshToken then
    match env.refreshAccessToken with
    | .error err => .done (validateCatch err)
    | .ok none => .done (.ok { valid := false, refreshedTokens := none })
    | .ok (some t) =>
      .go (some { accessToken := some t, refreshToken := tokens.refreshToken })
  else .go none

/-- `GmailIntegration.validateTokens` (the maintained overload returning
`{ valid, refreshedTokens? }`): run the refresh preamble, probe
`users.getProfile`, then report a rotated access token (one differing
from the stored one) as `refreshedTokens`. -/
def validateTokens (env : OAuthEnv) (tokens : AuthTokens) :
    Except AppError TokenValidation :=
  match refreshPreamble env tokens with
  | .done r => r
  | .go refreshed0 =>
    match env.profile with
    | .error err => validateCatch err
    | .ok _ =>
      let refreshed :=
        match getRefreshedTokensModel env with
        | some latest =>
          if optTruthy latest.accessToken && !(latest.accessToken == tokens.accessToken) then
            some { accessToken := latest.accessToken,
                   refreshToken :=
                     match latest.refreshToken with
                     | some r => some r
                     | none => tokens.refreshToken }
          else refreshed0
        | none => refreshed0
      .ok { valid := true, refreshedTokens := refreshed }

/-! ## EmailService: result shapes and token plumbing -/

/-- `ServiceResult` from `src/utils/errors.ts`. -/
structure ServiceResult (α : Type) where
  success : Bool
  data : Option α
  error : Option String
deriving DecidableEq

/-- `createSuccessResult`. -/
def createSuccessResult {α : Type} (a : α) : ServiceResult α :=
  { success := true, data := some a, error := none }

/-- `createErrorResult`. -/
def createErrorResult {α : Type} (e : String) : ServiceResult α :=
  { success := false, data := none, error := some e }

/-- `handleServiceError` applied to a thrown `AppError`. -/
def handleServiceError {α : Type} (e : AppError) : ServiceResult α :=
  { success := false, data := none, error := some e.message }

/-- The two credential-sufficiency policies of
`EmailService.getValidTokens`. -/
inductive TokenRequirement where
  | any
  | access
deriving DecidableEq

/-- `UserRepository.findByFirebaseUid` (the slice this core reads). -/
def findUser (s : Store) (uid : String) : Option UserRecord :=
  s.users.find? (fun u => u.firebaseUid == uid)

/-- `EmailService.getValidTokens`: read the stored pair; `"access"`
requires a truthy access token, `"any"` accepts either token. -/
def getValidTokens (s : Store) (uid : String) (req : TokenRequirement) :
    Option AuthTokens :=
  match findUser s uid with
  | none => none
  | some u =>
    let tokens : AuthTokens := { accessToken := u.accessToken, refreshToken := u.refreshToken }
    let hasAccess := optTruthy tokens.accessToken
    let hasRefresh := optTruthy tokens.refreshToken
    match req with
    | .access => if hasAccess then some tokens else none
    | .any => if hasAccess || hasRefresh then some tokens else none

/-- `UserRepository.storeTokens`: persist only the truthy halves of the
pair. -/
def storeTokens (s : Store) (uid : String) (t : AuthTokens) : Store :=
  let upd := fun (u : UserRecord) =>
    if u.firebaseUid == uid then
      { u with
        accessToken := if optTruthy t.accessToken then t.accessToken else u.accessToken,
        refreshToken := if optTruthy t.refreshToken then t.refreshToken else u.refreshToken }
    else u
  { s with users := s.users.map upd }

/-! ## EmailService: remote-call oracle and trace -/

/-- A remote mailbox interaction, recorded in order of occurrence. -/
inductive RemoteCall where
  | validateCall (t : AuthTokens)
  | fetchCall (t : AuthTokens)
  | fetchThreadCall (t : AuthTokens) (gmailThreadId : String)
  | sendReplyCall (t : AuthTokens) (gmailThreadId toAddr subject body : String)
      (inReplyTo : Option String) (references : List String)
deriving DecidableEq

/-- Oracle for the external world an `EmailService` operation touches:
Gmail call outcomes, JS `Date` parsing, the current clock, and the
storage port's rejection behaviour. -/
structure GmailEnv where
  /-- Outcome of `gmailIntegration.validateTokens`. -/
  validate : AuthTokens → Except AppError TokenValidation
  /-- Outcome of the n-th `gmailIntegration.getMessages` attempt. -/
  fetch : Nat → AuthTokens → Except AppError (List GmailMessage)
  /-- Outcome of `gmailIntegration.getThreadMessages`. -/
  fetchThread : AuthTokens → String → Except AppError (List GmailMessage)
  /-- Outcome of `gmailIntegration.sendReply`. -/
  sendReplyRes : AuthTokens → Except AppError String
  /-- `new Date(v).getTime()` for a parseable `v` (else `none` = NaN). -/
  parseDate : String → Option Nat
  /-- `new Date()` / Prisma `now()`. -/
  now : Nat
  /-- Storage-port rejection oracle used by the batch upsert. -/
  reject : RejectOracle

/-- The auth-shaped error test of `syncUserEmails`:
`/invalid authentication|unauthorized|401|403/i` on the error message. -/
def authShaped (msg : String) : Bool :=
  let l := lowerStr msg
  containsSub l "invalid authentication" || containsSub l "unauthorized" ||
    containsSub l "401" || containsSub l "403"

/-- `EmailService.parseDate`: falsy or unparseable dates collapse to the
current time. -/
def parseDateE (env : GmailEnv) (v : String) : Nat :=
  if jsTruthy v then (env.parseDate v).getD env.now else env.now

/-! ## EmailService: reconciliation loop

The shared `for (const message of messages)` loop of `syncUserEmails`
and `getThread`: skip messages with a falsy id or thread id, resolve the
local thread through the per-call memo cache (`ensureThread` on miss),
apply the subject fallback chain and collect upsert payloads. -/

/-- Resolve the local thread for a remote thread id through the memo
cache. -/
def resolveThread (env : GmailEnv) (userId : String) (s : Store)
    (cache : List (String × EmailThread)) (gmailThreadId subject : String) :
    EmailThread × Store × List (String × EmailThread) :=
  match cache.find? (fun p => p.1 == gmailThreadId) with
  | some p => (p.2, s, cache)
  | none =>
    let et := ensureThread s userId gmailThreadId subject env.now
    (et.1, et.2, cache ++ [(gmailThreadId, et.1)])

/-- The upsert payload built for one kept message: the subject falls back
from the message to the mapped thread to `fallback` (the thread being
fetched in `getThread`; `""` in `syncUserEmails`), and the body falls
back from the parsed body to the snippet. -/
def buildPayload (env : GmailEnv) (userId : String) (m : GmailMessage)
    (thread : EmailThread) (fallback : String) : EmailUpsertInput :=
  { gmailId := m.id, threadId := thread.id, userId := userId,
    fromAddr := m.fromAddr, toAddr := m.toAddr,
    subject := jsOr m.subject (jsOr thread.subject (jsOr fallback "")),
    body := jsOrOpt m.body m.snippet, htmlBody := m.htmlBody,
    timestamp := parseDateE env m.date, isUnread := m.isUnread }

/-- The reconciliation loop over the fetched messages. -/
def reconcilePayloads (env : GmailEnv) (userId : String) (fallback : String) :
    List GmailMessage → Store → List (String × EmailThread) →
    List EmailUpsertInput × Store
  | [], s, _ => ([], s)
  | m :: rest, s, cache =>
    if !(jsTruthy m.threadId) || !(jsTruthy m.id) then
      reconcilePayloads env userId fallback rest s cache
    else
      let rt := resolveThread env userId s cache m.threadId m.subject
      let p := buildPayload env userId m rt.1 fallback
      let tail := reconcilePayloads env userId fallback rest rt.2.1 rt.2.2
      (p :: tail.1, tail.2)

/-! ## EmailService.syncUserEmails -/

/-- The fetch-with-one-auth-retry phase of `syncUserEmails`
(lines 192–219): try `getMessages`; on an auth-shaped error validate the
tokens, persist a refreshed access token and retry exactly once; any
other path propagates the error. -/
def syncFetch (env : GmailEnv) (s : Store) (uid : String) (tokens : AuthTokens) :
    Except AppError (List GmailMessage × AuthTokens) × Store × List RemoteCall :=
  match env.fetch 0 tokens with
  | .ok msgs => (.ok (msgs, tokens), s, [.fetchCall tokens])
  | .error e =>
    if !(authShaped e.message) then (.error e, s, [.fetchCall tokens])
    else
      match env.validate tokens with
      | .error ve => (.error ve, s, [.fetchCall tokens, .validateCall tokens])
      | .ok v =>
        if !v.valid then (.error e, s, [.fetchCall tokens, .validateCall tokens])
        else
          let ts1 :=
            match v.refreshedTokens with
            | some rt =>
              if optTruthy rt.accessToken then (rt, storeTokens s uid rt) else (tokens, s)
            | none => (tokens, s)
          match env.fetch 1 ts1.1 with
          | .ok msgs =>
            (.ok (msgs, ts1.1), ts1.2,
             [.fetchCall tokens, .validateCall tokens, .fetchCall ts1.1])
          | .error e2 =>
            (.error e2, ts1.2, [.fetchCall tokens, .validateCall tokens, .fetchCall ts1.1])

/-- The `{ synced, errors, errorDetails }` payload of `syncUserEmails`. -/
structure SyncErrorDetail where
  messageId : String
  error : String
deriving DecidableEq

structure SyncData where
  synced : Nat
  errors : Nat
  errorDetails : List SyncErrorDetail
deriving DecidableEq

/-- `EmailService.syncUserEmails`: user lookup, `"access"` token policy,
fetch with one auth retry, reconcile, batch upsert, and shape the
result (per-item upsert failures are reported, never thrown). -/
def syncUserEmails (env : GmailEnv) (s : Store) (uid : String) :
    ServiceResult SyncData × Store × List RemoteCall :=
  match findUser s uid with
  | none => (createErrorResult "User not found", s, [])
  | some u =>
    match getValidTokens s uid .access with
    | none => (createErrorResult "Gmail tokens not found", s, [])
    | some tokens =>
      match syncFetch env s uid tokens with
      | (.error e, s1, tr) => (handleServiceError e, s1, tr)
      | (.ok (msgs, _), s1, tr) =>
        let rp := reconcilePayloads env u.id "" msgs s1 []
        let br := upsertEmailsBatch env.reject rp.2 rp.1
        let details := br.1.errors.map
          (fun er => { messageId := er.gmailId, error := er.error : SyncErrorDetail })
        (createSuccessResult
          { synced := br.1.createdCount, errors := details.length,
            errorDetails := details },
         br.2, tr)

/-! ## EmailService.getThread -/

/-- The `{ thread, upsertErrors? }` payload of `getThread` /
`replyToThread`. -/
structure ThreadPayload where
  thread : EmailThread
  upsertErrors : Option (List BatchError)
deriving DecidableEq

/-- Shape the `getThread` outcome from the refreshed thread and the
collected upsert errors (success, or 207-style partial failure). -/
def reconcileOutcome (refreshed : EmailThread) (errors : List BatchError) :
    ServiceResult ThreadPayload :=
  if errors.isEmpty then
    createSuccessResult { thread := refreshed, upsertErrors := none }
  else
    { success := false,
      data := some { thread := refreshed, upsertErrors := some errors },
      error := some "Some emails failed to upsert" }

/-- The tail of `getThread` once the remote thread messages have been
fetched: reconcile them (memo cache seeded with the requested thread),
batch-upsert when nonempty, re-read the thread, and downgrade to a
207-style partial result when some upserts failed.  (The fire-and-forget
suggested-reply generation is cache-only and alters neither the store
nor the result.) -/
def getThreadReconcile (env : GmailEnv) (s : Store) (userId : String)
    (threadId : Nat) (thread : EmailThread) (msgs : List GmailMessage) :
    ServiceResult ThreadPayload × Store :=
  let rp := reconcilePayloads env userId thread.subject msgs s [(thread.gmailId, thread)]
  let br :=
    if rp.1.isEmpty then
      (({ results := [], createdCount := 0, errors := [] } : EmailBatchUpsertResult), rp.2)
    else upsertEmailsBatch env.reject rp.2 rp.1
  match findThreadById br.2 threadId with
  | none => (createErrorResult "Thread not found", br.2)
  | some refreshed => (reconcileOutcome refreshed br.1.errors, br.2)

/-- `EmailService.getThread`: load the local thread; a thread without
Gmail metadata is returned as-is; otherwise `"any"` token policy,
validate/refresh, fetch the remote thread messages and reconcile. -/
def getThread (env : GmailEnv) (s : Store) (uid : String) (threadId : Nat) :
    ServiceResult ThreadPayload × Store × List RemoteCall :=
  match findUser s uid with
  | none => (createErrorResult "User not found", s, [])
  | some u =>
    match findThreadById s threadId with
    | none => (createErrorResult "Thread not found", s, [])
    | some thread =>
      if !(thread.id == threadId) then (createErrorResult "Thread not found", s, [])
      else if !(jsTruthy thread.gmailId) then
        (createSuccessResult { thread := thread, upsertErrors := none }, s, [])
      else
        match getValidTokens s uid .any with
        | none => (createErrorResult "Gmail tokens not found", s, [])
        | some tokens =>
          -- ensureValidTokens: validate, persist a rotated access token
          match env.validate tokens with
          | .error ve => (handleServiceError ve, s, [.validateCall tokens])
          | .ok v =>
            if !v.valid then
              (createErrorResult "Gmail authentication required", s, [.validateCall tokens])
            else
              let eff :=
                match v.refreshedTokens with
                | some rt =>
                  if optTruthy rt.accessToken then (rt, storeTokens s uid rt)
                  else (tokens, s)
                | none => (tokens, s)
              match env.fetchThread eff.1 thread.gmailId with
              | .error fe =>
                (handleServiceError fe, eff.2,
                 [.validateCall tokens, .fetchThreadCall eff.1 thread.gmailId])
              | .ok msgs =>
                let gr := getThreadReconcile env eff.2 u.id threadId thread msgs
                (gr.1, gr.2, [.validateCall tokens, .fetchThreadCall eff.1 thread.gmailId])

/-! ## EmailService.replyToThread -/

/-- The insertion pass of a JS `Set` built from a list: keep each
element's first occurrence, in order. -/
def jsSetDedupGo (seen : List String) : List String → List String
  | [] => []
  | x :: xs =>
    if seen.contains x then jsSetDedupGo seen xs
    else x :: jsSetDedupGo (x :: seen) xs

/-- `Array.from(new Set(l))`: first-occurrence deduplication. -/
def jsSetDedup (l : List String) : List String := jsSetDedupGo [] l

/-- The `References` list of a reply: the latest message's references
header split on whitespace (when truthy), followed by its own
`Message-ID` header, falsy entries dropped, first-occurrence
deduplicated (`Array.from(new Set(...))`). -/
def buildReferences (references : Option String) (messageIdHeader : Option String) :
    List String :=
  let split :=
    match references with
    | some r => if jsTruthy r then splitWsJs r else []
    | none => []
  let mid :=
    match messageIdHeader with
    | some m => [m]
    | none => []
  jsSetDedup ((split ++ mid).filter jsTruthy)

/-- The reply subject: keep an existing `"Re:"`-led subject, prefix
`"Re: "` onto a nonempty one, and fall back to the literal `"Re:"`. -/
def replySubject (baseSubject : String) : String :=
  if startsWithB baseSubject "Re:" then baseSubject
  else if jsTruthy baseSubject then "Re: " ++ baseSubject
  else "Re:"

/-- The sort key of `replyToThread`'s message sort
(`new Date(a.date).getTime()`, unparseable dates as 0). -/
def dateKey (env : GmailEnv) (m : GmailMessage) : Nat :=
  (env.parseDate m.date).getD 0

/-- The argument bundle handed to `gmailIntegration.sendReply`. -/
structure ReplyArgs where
  toAddr : String
  subject : String
  inReplyTo : Option String
  references : List String
deriving DecidableEq

/-- The pure reply-construction slice of `replyToThread`: sort the
fetched messages by date, take the latest, derive recipient, subject and
threading headers.  `none` models the early error returns (empty thread,
missing latest, falsy sender). -/
def replyPlan (env : GmailEnv) (thread : EmailThread) (msgs : List GmailMessage) :
    Option ReplyArgs :=
  if msgs.isEmpty then none
  else
    let sorted := stableSort (fun a b => dateKey env a ≤ dateKey env b) msgs
    match sorted.getLast? with
    | none => none
    | some latest =>
      if !(jsTruthy latest.fromAddr) then none
      else
        let baseSubject := jsOr thread.subject (jsOr latest.subject "")
        some { toAddr := extractEmailAddress latest.fromAddr,
               subject := replySubject baseSubject,
               inReplyTo := latest.messageIdHeader,
               references := buildReferences latest.references latest.messageIdHeader }

/-- `EmailService.replyToThread`: `"any"` token policy, an explicit
validate/refresh before sending, reply construction, `sendReply`, then a
full `getThread` to return the reconciled view. -/
def replyToThread (env : GmailEnv) (s : Store) (uid : String) (threadId : Nat)
    (body : String) : ServiceResult ThreadPayload × Store × List RemoteCall :=
  match findUser s uid with
  | none => (createErrorResult "User not found", s, [])
  | some _u =>
    match getValidTokens s uid .any with
    | none => (createErrorResult "Gmail tokens not found", s, [])
    | some tokens =>
      match env.validate tokens with
      | .error ve => (handleServiceError ve, s, [.validateCall tokens])
      | .ok v =>
        if !v.valid then
          (createErrorResult "Gmail authentication required", s, [.validateCall tokens])
        else
          let eff :=
            match v.refreshedTokens with
            | some rt =>
              if optTruthy rt.accessToken then (rt, storeTokens s uid rt)
              else (tokens, s)
            | none => (tokens, s)
          match findThreadById eff.2 threadId with
          | none => (createErrorResult "Thread not found", eff.2, [.validateCall tokens])
          | some thread =>
            if !(jsTruthy thread.gmailId) then
              (createErrorResult "Thread is missing Gmail metadata", eff.2,
               [.validateCall tokens])
            else
              match env.fetchThread eff.1 thread.gmailId with
              | .error fe =>
                (handleServiceError fe, eff.2,
                 [.validateCall tokens, .fetchThreadCall eff.1 thread.gmailId])
              | .ok msgs =>
                let pre := [RemoteCall.validateCall tokens,
                            RemoteCall.fetchThreadCall eff.1 thread.gmailId]
                match replyPlan env thread msgs with
                | none =>
                  let err :=
                    if msgs.isEmpty then "No messages found in thread"
                    else "Unable to determine recipient"
                  (createErrorResult err, eff.2, pre)
                | some args =>
                  match env.sendReplyRes eff.1 with
                  | .error se => (handleServiceError se, eff.2,
                      pre ++ [.sendReplyCall eff.1 thread.gmailId args.toAddr
                                args.subject body args.inReplyTo args.references])
                  | .ok _ =>
                    let gt := getThread env eff.2 uid threadId
                    (gt.1, gt.2.1,
                     pre ++ [.sendReplyCall eff.1 thread.gmailId args.toAddr
                               args.subject body args.inReplyTo args.references] ++ gt.2.2)

/-! ## Sorting lemmas -/

theorem mem_ordInsert {α : Type} (le : α → α → Bool) (a x : α) (l : List α) :
    x ∈ ordInsert le a l ↔ x = a ∨ x ∈ l := by
  induction l with
  | nil => simp [ordInsert]
  | cons b t ih =>
    simp only [ordInsert]
    by_cases h : le a b = true
    · rw [if_pos h]
      simp [List.mem_cons]
    · rw [if_neg h]
      simp only [List.mem_cons, ih]
      tauto

theorem pairwise_ordInsert {α : Type} (le : α → α → Bool)
    (htot : ∀ a b, (le a b || le b a) = true)
    (htrans : ∀ a b c, le a b = true → le b c = true → le a c = true)
    (a : α) (l : List α)
    (h : l.Pairwise (fun x y => le x y = true)) :
    (ordInsert le a l).Pairwise (fun x y => le x y = true) := by
  induction l with
  | nil => simp [ordInsert]
  | cons b t ih =>
    rcases List.pairwise_cons.mp h with ⟨hb, ht⟩
    simp only [ordInsert]
    by_cases hab : le a b = true
    · simp only [if_pos hab]
      refine List.pairwise_cons.mpr ⟨?_, h⟩
      intro y hy
      rcases List.mem_cons.mp hy with rfl | hyt
      · exact hab
      · exact htrans a b y hab (hb y hyt)
    · simp only [if_neg hab]
      refine List.pairwise_cons.mpr ⟨?_, ih ht⟩
      intro y hy
      rcases (mem_ordInsert le a y t).mp hy with hya | hyt
      · rw [hya]
        have := htot a b
        simp [hab] at this
        exact this
      · exact hb y hyt

theorem pairwise_stableSort {α : Type} (le : α → α → Bool)
    (htot : ∀ a b, (le a b || le b a) = true)
    (htrans : ∀ a b c, le a b = true → le b c = true → le a c = true)
    (l : List α) :
    (stableSort le l).Pairwise (fun x y => le x y = true) := by
  induction l with
  | nil => simp [stableSort]
  | cons a t ih => exact pairwise_ordInsert le htot htrans a _ ih

/-- The timestamp relation the ordering claims speak about. -/
def tsRel (a b : EmailMessage) : Prop := a.timestamp ≤ b.timestamp

theorem tsLe_total (a b : EmailMessage) : (tsLe a b || tsLe b a) = true := by
  rcases Nat.le_total a.timestamp b.timestamp with h | h <;> simp [tsLe, h]

theorem tsLe_trans (a b c : EmailMessage) (h1 : tsLe a b = true) (h2 : tsLe b c = true) :
    tsLe a c = true := by
  simp only [tsLe, decide_eq_true_eq] at *
  exact le_trans h1 h2

theorem mapToEmailThread_sorted (t : ThreadRecord) (rows : List EmailRecord) :
    (mapToEmailThread t rows).messages.Pairwise tsRel := by
  have h := pairwise_stableSort tsLe tsLe_total tsLe_trans (rows.map mapToEmailMessage)
  exact h.imp (fun hd => by simpa [tsLe, tsRel] using hd)

theorem findThreadById_sorted (s : Store) (id : Nat) (t : EmailThread)
    (h : findThreadById s id = some t) : t.messages.Pairwise tsRel := by
  unfold findThreadById at h
  rcases hf : s.threads.find? (fun tr => tr.id == id) with _ | tr
  · simp [hf] at h
  · simp only [hf, Option.map_some', Option.some.injEq] at h
    subst h
    exact mapToEmailThread_sorted _ _

theorem findThreadByGmailId_sorted (s : Store) (u g : String) (t : EmailThread)
    (h : findThreadByGmailId s u g = some t) : t.messages.Pairwise tsRel := by
  unfold findThreadByGmailId at h
  rcases hf : s.threads.find? (fun tr => tr.userId == u && tr.gmailId == g) with _ | tr
  · simp [hf] at h
  · simp only [hf, Option.map_some', Option.some.injEq] at h
    subst h
    exact mapToEmailThread_sorted _ _

theorem createThread_sorted (s : Store) (u g subj : String) (now : Nat) :
    (createThread s u g subj now).1.messages.Pairwise tsRel := by
  unfold createThread
  exact mapToEmailThread_sorted _ _

theorem ensureThread_sorted (s : Store) (u g subj : String) (now : Nat) :
    (ensureThread s u g subj now).1.messages.Pairwise tsRel := by
  unfold ensureThread
  rcases hf : findThreadByGmailId s u g with _ | t
  · exact createThread_sorted s u g subj now
  · exact findThreadByGmailId_sorted s u g t hf

theorem reconcileOutcome_data (refreshed : EmailThread) (errors : List BatchError)
    (pl : ThreadPayload) (h : (reconcileOutcome refreshed errors).data = some pl) :
    pl.thread = refreshed := by
  unfold reconcileOutcome at h
  split at h
  · simp only [createSuccessResult, Option.some.injEq] at h
    subst h
    rfl
  · simp only [Option.some.injEq] at h
    subst h
    rfl

theorem getThreadReconcile_sorted (env : GmailEnv) (s : Store) (userId : String)
    (threadId : Nat) (thread : EmailThread) (msgs : List GmailMessage)
    (pl : ThreadPayload)
    (h : (getThreadReconcile env s userId threadId thread msgs).1.data = some pl) :
    pl.thread.messages.Pairwise tsRel := by
  simp only [getThreadReconcile] at h
  split at h
  · simp [createErrorResult] at h
  · next refreshed hf =>
    have hsorted := findThreadById_sorted _ _ _ hf
    have := reconcileOutcome_data _ _ _ h
    rw [this]
    exact hsorted

theorem getThread_data_sorted (env : GmailEnv) (s : Store) (uid : String)
    (threadId : Nat) (pl : ThreadPayload)
    (h : (getThread env s uid threadId).1.data = some pl) :
    pl.thread.messages.Pairwise tsRel := by
  simp only [getThread] at h
  split at h
  · simp [createErrorResult] at h
  · split at h
    · simp [createErrorResult] at h
    · next thread hfind =>
      split at h
      · simp [createErrorResult] at h
      · split at h
        · simp only [createSuccessResult, Option.some.injEq] at h
          subst h
          exact findThreadById_sorted _ _ _ hfind
        · split at h
          · simp [createErrorResult] at h
          · split at h
            · simp [handleServiceError] at h
            · split at h
              · simp [createErrorResult] at h
              · split at h
                · simp [handleServiceError] at h
                · exact getThreadReconcile_sorted _ _ _ _ _ _ _ h

/-! ## Claim C5 -/

/-- C5: thread ordering invariant — every `Thread` value returned by the
reconciliation layer (`findThreadById`, `findThreadByGmailId`,
`createThread`, `ensureThread`, and therefore `getThread`) carries its
messages in non-decreasing timestamp order, regardless of the order in
which the remote API returned them or the store holds them. -/
theorem claim_C5_thread_ordering :
    (∀ s id t, findThreadById s id = some t → t.messages.Pairwise tsRel) ∧
    (∀ s u g t, findThreadByGmailId s u g = some t → t.messages.Pairwise tsRel) ∧
    (∀ s u g subj now, (createThread s u g subj now).1.messages.Pairwise tsRel) ∧
    (∀ s u g subj now, (ensureThread s u g subj now).1.messages.Pairwise tsRel) ∧
    (∀ env s uid tid pl, (getThread env s uid tid).1.data = some pl →
      pl.thread.messages.Pairwise tsRel) :=
  ⟨findThreadById_sorted, findThreadByGmailId_sorted,
   createThread_sorted, ensureThread_sorted, getThread_data_sorted⟩

/-- Concrete store for the C5 witness: one thread holding two messages
stored out of chronological order. -/
def storeC5 : Store :=
  { users := [],
    threads := [{ id := 0, userId := "u1", gmailId := "T1", subject := "s",
                  createdAt := 0, updatedAt := 0 }],
    emails :=
      [{ id := 1, gmailId := "g5", threadId := 0, userId := "u1",
         fromAddr := "a", toAddr := "b", subject := "s", body := "later",
         htmlBody := none, timestamp := 5, isUnread := false },
       { id := 2, gmailId := "g2", threadId := 0, userId := "u1",
         fromAddr := "a", toAddr := "b", subject := "s", body := "earlier",
         htmlBody := none, timestamp := 2, isUnread := false }],
    nextId := 10 }

/-- The thread C5's witness expects back: messages re-sorted ascending. -/
def threadC5 : EmailThread :=
  { id := 0, gmailId := "T1", subject := "s",
    messages :=
      [{ id := 2, gmailId := "g2", threadId := 0, fromAddr := "a", toAddr := "b",
         subject := "s", body := "earlier", htmlBody := none, timestamp := 2,
         isUnread := false },
       { id := 1, gmailId := "g5", threadId := 0, fromAddr := "a", toAddr := "b",
         subject := "s", body := "later", htmlBody := none, timestamp := 5,
         isUnread := false }],
    createdAt := 0, updatedAt := 0 }

theorem claim_C5_thread_ordering_witness :
    findThreadById storeC5 0 = some threadC5 ∧
      threadC5.messages.Pairwise tsRel :=
  ⟨by decide, claim_C5_thread_ordering.1 storeC5 0 threadC5 (by decide)⟩

/-! ## Claim C3 -/

/-- C3: token-sufficiency policies per entry point — for a stored user
whose credentials hold only a refresh token (no access token),
`syncUserEmails` (policy `"access"`) fails without any remote call
(empty trace), while `getThread` (on a Gmail-backed thread) and
`replyToThread` (policy `"any"`) proceed to attempt the remote
`validateTokens` call with those stored credentials. -/
theorem claim_C3_token_policies :
    ∀ s uid u, findUser s uid = some u →
      optTruthy u.accessToken = false → optTruthy u.refreshToken = true →
      (∀ env, syncUserEmails env s uid =
        (createErrorResult "Gmail tokens not found", s, [])) ∧
      (∀ env tid thread, findThreadById s tid = some thread →
        thread.id = tid → jsTruthy thread.gmailId = true →
        ∃ rest, (getThread env s uid tid).2.2 =
          RemoteCall.validateCall ⟨u.accessToken, u.refreshToken⟩ :: rest) ∧
      (∀ env tid body, ∃ rest, (replyToThread env s uid tid body).2.2 =
        RemoteCall.validateCall ⟨u.accessToken, u.refreshToken⟩ :: rest) := by
  intro s uid u hu hacc href
  have htokA : getValidTokens s uid .access = none := by
    simp [getValidTokens, hu, hacc]
  have htokAny : getValidTokens s uid .any = some ⟨u.accessToken, u.refreshToken⟩ := by
    simp [getValidTokens, hu, hacc, href]
  refine ⟨?_, ?_, ?_⟩
  · intro env
    simp [syncUserEmails, hu, htokA]
  · intro env tid thread hft hid hgm
    simp only [getThread, hu, hft, htokAny]
    repeat' first
      | (exact ⟨_, rfl⟩)
      | split
    all_goals simp_all
  · intro env tid body
    simp only [replyToThread, hu, htokAny]
    repeat' first
      | (exact ⟨_, rfl⟩)
      | split

/-- Concrete refresh-only user and environment for the C3 witness. -/
def userC3 : UserRecord :=
  { id := "u1", firebaseUid := "fb1", accessToken := none, refreshToken := some "rt" }

def storeC3 : Store :=
  { users := [userC3],
    threads := [{ id := 0, userId := "u1", gmailId := "T1", subject := "s",
                  createdAt := 0, updatedAt := 0 }],
    emails := [], nextId := 1 }

def threadC3 : EmailThread :=
  { id := 0, gmailId := "T1", subject := "s", messages := [],
    createdAt := 0, updatedAt := 0 }

def envC3 : GmailEnv :=
  { validate := fun _ => .ok { valid := false, refreshedTokens := none },
    fetch := fun _ _ => .ok [],
    fetchThread := fun _ _ => .ok [],
    sendReplyRes := fun _ => .ok "",
    parseDate := fun _ => none, now := 0, reject := fun _ => none }

theorem claim_C3_token_policies_witness :
    (syncUserEmails envC3 storeC3 "fb1" =
      (createErrorResult "Gmail tokens not found", storeC3, [])) ∧
    (∃ rest, (getThread envC3 storeC3 "fb1" 0).2.2 =
      RemoteCall.validateCall ⟨none, some "rt"⟩ :: rest) ∧
    (∃ rest, (replyToThread envC3 storeC3 "fb1" 0 "hello").2.2 =
      RemoteCall.validateCall ⟨none, some "rt"⟩ :: rest) := by
  have h := claim_C3_token_policies storeC3 "fb1" userC3 (by decide) (by decide) (by decide)
  exact ⟨h.1 envC3, h.2.1 envC3 0 threadC3 (by decide) (by decide) (by decide),
    h.2.2 envC3 0 "hello"⟩

/-! ## Claim C4 -/

/-- C4: the auth-retry-once discipline of `syncUserEmails`' fetch phase —
a non-auth-shaped fetch failure propagates without validation or retry;
an auth-shaped failure triggers one `validateTokens` call; if validation
itself throws, that error propagates; if it reports the credentials
invalid, the original fetch error propagates with no retry; if it
reports them valid with refreshed credentials (truthy access token), the
refreshed pair is persisted and the fetch is retried exactly once with
it, a failing retry propagating its own error. -/
theorem claim_C4_auth_retry_once :
    ∀ env s uid tokens e, env.fetch 0 tokens = .error e →
      (authShaped e.message = false →
        syncFetch env s uid tokens = (.error e, s, [.fetchCall tokens])) ∧
      (∀ ve, authShaped e.message = true → env.validate tokens = .error ve →
        syncFetch env s uid tokens =
          (.error ve, s, [.fetchCall tokens, .validateCall tokens])) ∧
      (∀ v, authShaped e.message = true → env.validate tokens = .ok v →
        v.valid = false →
        syncFetch env s uid tokens =
          (.error e, s, [.fetchCall tokens, .validateCall tokens])) ∧
      (∀ rt, authShaped e.message = true →
        env.validate tokens = .ok { valid := true, refreshedTokens := some rt } →
        optTruthy rt.accessToken = true →
        syncFetch env s uid tokens =
          ((match env.fetch 1 rt with
            | .ok msgs => .ok (msgs, rt)
            | .error e2 => .error e2),
           storeTokens s uid rt,
           [.fetchCall tokens, .validateCall tokens, .fetchCall rt])) := by
  intro env s uid tokens e hf0
  refine ⟨?_, ?_, ?_, ?_⟩
  · intro hna
    simp [syncFetch, hf0, hna]
  · intro ve ha hv
    simp [syncFetch, hf0, ha, hv]
  · intro v ha hv hvv
    simp [syncFetch, hf0, ha, hv, hvv]
  · intro rt ha hv hacc
    simp only [syncFetch, hf0, ha, hv, hacc]
    rcases h1 : env.fetch 1 rt with e2 | msgs <;> simp [h1, hacc]

/-- Concrete environment for the C4 witness: first fetch fails with an
auth-shaped error, validation refreshes, the single retry fails too and
its error propagates. -/
def rtC4 : AuthTokens := { accessToken := some "newAT", refreshToken := some "rt" }

def eAuthC4 : AppError :=
  { message := "Gmail error: Failed to fetch messages: 401 Unauthorized",
    statusCode := 503, code := some "EXTERNAL_SERVICE_ERROR" }

def eRetryC4 : AppError :=
  { message := "Gmail error: Failed to fetch messages: backend down",
    statusCode := 503, code := some "EXTERNAL_SERVICE_ERROR" }

def envC4 : GmailEnv :=
  { validate := fun _ => .ok { valid := true, refreshedTokens := some rtC4 },
    fetch := fun n _ => if n == 0 then .error eAuthC4 else .error eRetryC4,
    fetchThread := fun _ _ => .ok [],
    sendReplyRes := fun _ => .ok "",
    parseDate := fun _ => none, now := 0, reject := fun _ => none }

def storeC4 : Store :=
  { users := [{ id := "u1", firebaseUid := "fb1", accessToken := some "oldAT",
                refreshToken := some "rt" }],
    threads := [], emails := [], nextId := 0 }

def tokC4 : AuthTokens := { accessToken := some "oldAT", refreshToken := some "rt" }

theorem claim_C4_auth_retry_once_witness :
    syncFetch envC4 storeC4 "fb1" tokC4 =
      (.error eRetryC4, storeTokens storeC4 "fb1" rtC4,
       [.fetchCall tokC4, .validateCall tokC4, .fetchCall rtC4]) := by
  have h := (claim_C4_auth_retry_once envC4 storeC4 "fb1" tokC4 eAuthC4
    (by decide)).2.2.2 rtC4 (by decide) (by decide) (by decide)
  rw [h]
  decide

/-! ## Claim C6 -/

theorem nodup_jsSetDedupGo (seen l : List String) :
    (jsSetDedupGo seen l).Nodup ∧ ∀ y ∈ jsSetDedupGo seen l, y ∉ seen := by
  induction l generalizing seen with
  | nil => simp [jsSetDedupGo]
  | cons x xs ih =>
    by_cases hx : x ∈ seen
    · simpa [jsSetDedupGo, hx] using ih seen
    · rcases ih (x :: seen) with ⟨hnd, hnotin⟩
      have heq : jsSetDedupGo seen (x :: xs) = x :: jsSetDedupGo (x :: seen) xs := by
        simp [jsSetDedupGo, hx]
      have hxnotin : x ∉ jsSetDedupGo (x :: seen) xs := by
        intro hmem
        exact (hnotin x hmem) (List.mem_cons_self x seen)
      rw [heq]
      refine ⟨List.nodup_cons.mpr ⟨hxnotin, hnd⟩, ?_⟩
      intro y hy
      rcases List.mem_cons.mp hy with rfl | hyt
      · exact hx
      · intro hc
        exact (hnotin y hyt) (List.mem_cons_of_mem x hc)

theorem nodup_jsSetDedup (l : List String) : (jsSetDedup l).Nodup :=
  (nodup_jsSetDedupGo [] l).1

theorem nodup_buildReferences (refs mid : Option String) :
    (buildReferences refs mid).Nodup := by
  unfold buildReferences
  exact nodup_jsSetDedup _

theorem mem_stableSort {α : Type} (le : α → α → Bool) (l : List α) (x : α) :
    x ∈ stableSort le l ↔ x ∈ l := by
  induction l with
  | nil => simp [stableSort]
  | cons a t ih =>
    simp only [stableSort, mem_ordInsert, ih, List.mem_cons]

/-- C6: reply threading — the constructed `References` list is the
first-occurrence deduplicated union of the latest message's references
header (split on whitespace) followed by its own `Message-ID`, never
containing duplicates; for Message-ID `"<abc@x>"` and References
`"<prev@x>"` it equals `["<prev@x>", "<abc@x>"]`; the reply subject
keeps an existing `"Re:"`-led subject, otherwise gains the `"Re: "`
leader, and is literally `"Re:"` when there is no subject at all; and
every reply plan built by `replyToThread` draws both from the latest
fetched message. -/
theorem claim_C6_reply_threading :
    (∀ refs mid, (buildReferences refs mid).Nodup) ∧
    (buildReferences (some "<prev@x>") (some "<abc@x>") = ["<prev@x>", "<abc@x>"]) ∧
    (∀ b, startsWithB b "Re:" = true → replySubject b = b) ∧
    (∀ b, startsWithB b "Re:" = false → jsTruthy b = true →
      replySubject b = "Re: " ++ b) ∧
    (replySubject "Q3 Planning" = "Re: Q3 Planning") ∧
    (replySubject "Re: Q3 Planning" = "Re: Q3 Planning") ∧
    (replySubject "" = "Re:") ∧
    (∀ env thread msgs args, replyPlan env thread msgs = some args →
      ∃ latest, latest ∈ msgs ∧
        args.references = buildReferences latest.references latest.messageIdHeader ∧
        args.subject = replySubject (jsOr thread.subject (jsOr latest.subject "")) ∧
        args.inReplyTo = latest.messageIdHeader) := by
  refine ⟨nodup_buildReferences, by decide, ?_, ?_, by decide, by decide, by decide, ?_⟩
  · intro b hb
    simp [replySubject, hb]
  · intro b hb htr
    simp [replySubject, hb, htr]
  · intro env thread msgs args hplan
    unfold replyPlan at hplan
    by_cases hempty : msgs.isEmpty
    · simp [hempty] at hplan
    · simp only [hempty, Bool.false_eq_true, if_false] at hplan
      rcases hlast : (stableSort (fun a b => dateKey env a ≤ dateKey env b) msgs).getLast?
          with _ | latest
      · rw [hlast] at hplan
        simp at hplan
      · rw [hlast] at hplan
        by_cases hfrom : jsTruthy latest.fromAddr
        · simp only [hfrom, Bool.not_true, Bool.false_eq_true, if_false,
            Option.some.injEq] at hplan
          refine ⟨latest, ?_, ?_, ?_, ?_⟩
          · exact (mem_stableSort _ msgs latest).mp
              (List.mem_of_getLast?_eq_some hlast)
          · rw [← hplan]
          · rw [← hplan]
          · rw [← hplan]
        · simp [hfrom] at hplan

/-- Concrete reply scenario for the C6 witness. -/
def msgC6 : GmailMessage :=
  { id := "g1", threadId := "T1", subject := "Q3 Planning",
    fromAddr := "Ann <ann@x>", toAddr := "bob@x", date := "d", snippet := "",
    body := none, htmlBody := none, isUnread := false,
    messageIdHeader := some "<abc@x>", references := some "<prev@x>" }

def threadC6 : EmailThread :=
  { id := 0, gmailId := "T1", subject := "Q3 Planning", messages := [],
    createdAt := 0, updatedAt := 0 }

def envC6 : GmailEnv :=
  { validate := fun _ => .ok { valid := true, refreshedTokens := none },
    fetch := fun _ _ => .ok [], fetchThread := fun _ _ => .ok [],
    sendReplyRes := fun _ => .ok "", parseDate := fun _ => some 1, now := 0,
    reject := fun _ => none }

theorem claim_C6_reply_threading_witness :
    ∃ args, replyPlan envC6 threadC6 [msgC6] = some args ∧
      ∃ latest, latest ∈ [msgC6] ∧
        args.references = buildReferences latest.references latest.messageIdHeader ∧
        args.subject = replySubject (jsOr threadC6.subject (jsOr latest.subject "")) ∧
        args.inReplyTo = latest.messageIdHeader := by
  refine ⟨{ toAddr := "ann@x", subject := "Re: Q3 Planning",
            inReplyTo := some "<abc@x>",
            references := ["<prev@x>", "<abc@x>"] }, by decide, ?_⟩
  exact claim_C6_reply_threading.2.2.2.2.2.2.2 envC6 threadC6 [msgC6] _ (by decide)

/-! ## Claims C10 and C9: reconciliation loop and upsert plumbing -/

theorem upsertEmailInternal_gmailId (reject : RejectOracle) (s : Store)
    (e : EmailUpsertInput) :
    (upsertEmailInternal reject s e).1.gmailId = e.gmailId := by
  unfold upsertEmailInternal
  split
  · rfl
  · split <;> rfl

theorem resolveThread_emails (env : GmailEnv) (userId : String) (s : Store)
    (cache : List (String × EmailThread)) (g subj : String) :
    (resolveThread env userId s cache g subj).2.1.emails = s.emails := by
  unfold resolveThread
  split
  · rfl
  · unfold ensureThread
    split
    · rfl
    · rfl

theorem reconcilePayloads_gmailIds (env : GmailEnv) (uid fb : String) :
    ∀ (msgs : List GmailMessage) (s : Store) (cache : List (String × EmailThread)),
      ((reconcilePayloads env uid fb msgs s cache).1.map (fun p => p.gmailId) =
        (msgs.filter (fun m => jsTruthy m.threadId && jsTruthy m.id)).map
          (fun m => m.id)) ∧
      (reconcilePayloads env uid fb msgs s cache).2.emails = s.emails := by
  intro msgs
  induction msgs with
  | nil => intro s cache; simp [reconcilePayloads]
  | cons m rest ih =>
    intro s cache
    by_cases hc : (!(jsTruthy m.threadId) || !(jsTruthy m.id)) = true
    · have hfilter : (jsTruthy m.threadId && jsTruthy m.id) = false := by
        rcases Bool.or_eq_true_iff.mp hc with h | h <;>
          simp [Bool.not_eq_true'] at h <;> simp [h]
      simp only [reconcilePayloads, hc, if_true, List.filter_cons, hfilter]
      exact ih s cache
    · have hfilter : (jsTruthy m.threadId && jsTruthy m.id) = true := by
        revert hc
        cases jsTruthy m.threadId <;> cases jsTruthy m.id <;> simp
      simp only [reconcilePayloads, hc, Bool.false_eq_true, if_false,
        List.filter_cons, hfilter, if_true, List.map_cons]
      have hre := resolveThread_emails env uid s cache m.threadId m.subject
      rcases ih (resolveThread env uid s cache m.threadId m.subject).2.1
        (resolveThread env uid s cache m.threadId m.subject).2.2 with ⟨hids, hemails⟩
      refine ⟨?_, by rw [hemails, hre]⟩
      simp only [hids, buildPayload]

theorem upsertEmailInternal_emails_sub (reject : RejectOracle) (s : Store)
    (e : EmailUpsertInput) :
    ∀ r ∈ (upsertEmailInternal reject s e).2.emails,
      r.gmailId ∈ s.emails.map (fun x => x.gmailId) ∨ r.gmailId = e.gmailId := by
  intro r hr
  unfold upsertEmailInternal at hr
  split at hr
  · exact .inl (List.mem_map_of_mem _ hr)
  · split at hr
    · next existing _ =>
      simp only at hr
      rcases List.mem_map.mp hr with ⟨r0, hr0, heq⟩
      left
      by_cases hid : (r0.id == existing.id) = true
      · rw [if_pos hid] at heq
        subst heq
        simpa [applyData] using List.mem_map_of_mem (fun x => x.gmailId) hr0
      · rw [if_neg hid] at heq
        subst heq
        exact List.mem_map_of_mem _ hr0
    · simp only at hr
      rcases List.mem_append.mp hr with h | h
      · exact .inl (List.mem_map_of_mem _ h)
      · right
        simp only [List.mem_singleton] at h
        subst h
        rfl

theorem upsertBatchGo_gmailIds (reject : RejectOracle) :
    ∀ (inputs : List EmailUpsertInput) (s : Store),
      ((upsertBatchGo reject s inputs).1.map (fun r => r.gmailId) =
        inputs.map (fun e => e.gmailId)) ∧
      (∀ r ∈ (upsertBatchGo reject s inputs).2.emails,
        r.gmailId ∈ s.emails.map (fun x => x.gmailId) ∨
          r.gmailId ∈ inputs.map (fun e => e.gmailId)) := by
  intro inputs
  induction inputs with
  | nil =>
    intro s
    refine ⟨by simp [upsertBatchGo], ?_⟩
    intro r hr
    exact .inl (List.mem_map_of_mem _ (by simpa [upsertBatchGo] using hr))
  | cons e rest ih =>
    intro s
    simp only [upsertBatchGo, List.map_cons]
    rcases ih (upsertEmailInternal reject s e).2 with ⟨hids, hsub⟩
    refine ⟨by rw [hids, upsertEmailInternal_gmailId], ?_⟩
    intro r hr
    rcases hsub r hr with h | h
    · rcases List.mem_map.mp h with ⟨r0, hr0, heq⟩
      rcases upsertEmailInternal_emails_sub reject s e r0 hr0 with h0 | h0
      · exact .inl (heq ▸ h0)
      · right
        rw [← heq, h0]
        exact List.mem_cons_self _ _
    · right
      exact List.mem_cons_of_mem _ h

/-- C10 (implicit): messages lacking a remote message id or remote
thread id are silently skipped by the reconciliation loop — the payload
list covers exactly the messages with both ids truthy (in order), the
loop itself stores no email rows, every per-item result and error entry
of the batch carries a payload gmail id, and any email row after the
batch carries either a pre-existing gmail id or a payload gmail id.  So
skipped messages are not stored, add nothing to `createdCount`, and
produce no error entries. -/
theorem claim_C10_skipped_messages :
    (∀ env uid fb msgs s cache,
      ((reconcilePayloads env uid fb msgs s cache).1.map (fun p => p.gmailId) =
        (msgs.filter (fun m => jsTruthy m.threadId && jsTruthy m.id)).map
          (fun m => m.id)) ∧
      (reconcilePayloads env uid fb msgs s cache).2.emails = s.emails) ∧
    (∀ reject s inputs,
      ((upsertEmailsBatch reject s inputs).1.results.map (fun r => r.gmailId) =
        inputs.map (fun e => e.gmailId)) ∧
      (∀ er ∈ (upsertEmailsBatch reject s inputs).1.errors,
        er.gmailId ∈ inputs.map (fun e => e.gmailId)) ∧
      (∀ r ∈ (upsertEmailsBatch reject s inputs).2.emails,
        r.gmailId ∈ s.emails.map (fun x => x.gmailId) ∨
          r.gmailId ∈ inputs.map (fun e => e.gmailId))) := by
  constructor
  · intro env uid fb msgs s cache
    exact reconcilePayloads_gmailIds env uid fb msgs s cache
  · intro reject s inputs
    unfold upsertEmailsBatch
    by_cases hemp : inputs.isEmpty
    · rcases List.isEmpty_iff.mp hemp with rfl
      refine ⟨by simp, ?_, ?_⟩
      · intro er her
        simp at her
      · intro r hr
        exact .inl (List.mem_map_of_mem _ (by simpa using hr))
    · simp only [hemp, Bool.false_eq_true, if_false]
      rcases upsertBatchGo_gmailIds reject inputs s with ⟨hids, hsub⟩
      refine ⟨hids, ?_, hsub⟩
      intro er her
      simp only [List.mem_map] at her
      rcases her with ⟨r0, hr0, heq⟩
      have : r0.gmailId ∈ (upsertBatchGo reject s inputs).1.map (fun r => r.gmailId) :=
        List.mem_map_of_mem _ (List.mem_of_mem_filter hr0)
      rw [hids] at this
      rw [← heq]
      exact this

/-- Concrete scenario for the C10 witness: two fetched messages, one
lacking its thread id, the other kept. -/
def msgNoThread : GmailMessage :=
  { id := "gX", threadId := "", subject := "s", fromAddr := "a", toAddr := "b",
    date := "d", snippet := "sn", body := none, htmlBody := none,
    isUnread := false, messageIdHeader := none, references := none }

def msgKept : GmailMessage :=
  { id := "gK", threadId := "T1", subject := "s", fromAddr := "a", toAddr := "b",
    date := "d", snippet := "sn", body := none, htmlBody := none,
    isUnread := false, messageIdHeader := none, references := none }

def envC10 : GmailEnv :=
  { validate := fun _ => .ok { valid := true, refreshedTokens := none },
    fetch := fun _ _ => .ok [], fetchThread := fun _ _ => .ok [],
    sendReplyRes := fun _ => .ok "", parseDate := fun _ => some 1, now := 0,
    reject := fun _ => none }

def storeC10 : Store := { users := [], threads := [], emails := [], nextId := 0 }

theorem claim_C10_skipped_messages_witness :
    (reconcilePayloads envC10 "u1" "" [msgNoThread, msgKept] storeC10 []).1.map
        (fun p => p.gmailId) =
      ([msgNoThread, msgKept].filter
        (fun m => jsTruthy m.threadId && jsTruthy m.id)).map (fun m => m.id) ∧
    ([msgNoThread, msgKept].filter
        (fun m => jsTruthy m.threadId && jsTruthy m.id)).map (fun m => m.id) = ["gK"] :=
  ⟨(claim_C10_skipped_messages.1 envC10 "u1" "" [msgNoThread, msgKept]
      storeC10 []).1, by decide⟩

/-! ## Claim C9 -/

/-- Concrete scenario for C9: a fetched message with an empty subject
reconciled into a thread whose stored subject is `"Q3 Planning"`. -/
def msgC9 : GmailMessage :=
  { id := "gE", threadId := "T1", subject := "", fromAddr := "ann@x",
    toAddr := "bob@x", date := "d1", snippet := "snip", body := some "b",
    htmlBody := none, isUnread := false, messageIdHeader := none,
    references := none }

def storeC9 : Store :=
  { users := [{ id := "u1", firebaseUid := "fb1", accessToken := some "at",
                refreshToken := none }],
    threads := [{ id := 0, userId := "u1", gmailId := "T1",
                  subject := "Q3 Planning", createdAt := 1, updatedAt := 1 }],
    emails := [], nextId := 1 }

def envC9 : GmailEnv :=
  { validate := fun _ => .ok { valid := true, refreshedTokens := none },
    fetch := fun _ _ => .ok [], fetchThread := fun _ _ => .ok [msgC9],
    sendReplyRes := fun _ => .ok "", parseDate := fun _ => some 5, now := 7,
    reject := fun _ => none }

/-- C9: subject fallback — a reconciled message's stored subject is the
JS fallback chain `message.subject || mappedThread.subject ||
fetchedThread.subject || ""` (so an empty own subject falls back first
to the mapped thread's subject, then to the thread being fetched, and
is an empty string at worst, never undefined); the storage layer then
persists that subject verbatim; and upserting a message with an empty
subject into a thread whose subject is `"Q3 Planning"` stores the
subject `"Q3 Planning"`. -/
theorem claim_C9_subject_fallback :
    (∀ env uid m thread fb,
      (buildPayload env uid m thread fb).subject =
        jsOr m.subject (jsOr thread.subject (jsOr fb ""))) ∧
    (∀ env uid m thread fb, jsTruthy m.subject = false →
      jsTruthy thread.subject = true →
      (buildPayload env uid m thread fb).subject = thread.subject) ∧
    (∀ env uid m thread fb, jsTruthy m.subject = false →
      jsTruthy thread.subject = false → jsTruthy fb = true →
      (buildPayload env uid m thread fb).subject = fb) ∧
    (∀ reject s e, reject e = none →
      ∃ r ∈ (upsertEmailInternal reject s e).2.emails,
        r.gmailId = e.gmailId ∧ r.userId = e.userId ∧ r.subject = e.subject) ∧
    ((getThread envC9 storeC9 "fb1" 0).2.1.emails.map
        (fun r => (r.gmailId, r.subject)) = [("gE", "Q3 Planning")]) := by
  refine ⟨fun env uid m thread fb => rfl, ?_, ?_, ?_, by decide⟩
  · intro env uid m thread fb hm ht
    simp [buildPayload, jsOr, hm, ht]
  · intro env uid m thread fb hm ht hfb
    simp [buildPayload, jsOr, hm, ht, hfb]
  · intro reject s e hrej
    rcases hfind : s.emails.find?
        (fun r => r.gmailId == e.gmailId && r.userId == e.userId) with _ | existing
    · refine ⟨newRecord s.nextId e, ?_, rfl, rfl, rfl⟩
      simp [upsertEmailInternal, hrej, hfind]
    · have hpred := List.find?_some hfind
      simp only [Bool.and_eq_true, beq_iff_eq] at hpred
      refine ⟨applyData existing e, ?_, ?_, rfl, rfl⟩
      · simp only [upsertEmailInternal, hrej, hfind]
        exact List.mem_map.mpr ⟨existing, List.mem_of_find?_eq_some hfind, by simp⟩
      · simp [applyData, hpred.1]

theorem claim_C9_subject_fallback_witness :
    (buildPayload envC9 "u1" msgC9
        { id := 0, gmailId := "T1", subject := "Q3 Planning", messages := [],
          createdAt := 1, updatedAt := 1 } "Q3 Planning").subject = "Q3 Planning" :=
  claim_C9_subject_fallback.2.1 envC9 "u1" msgC9
    { id := 0, gmailId := "T1", subject := "Q3 Planning", messages := [],
      createdAt := 1, updatedAt := 1 } "Q3 Planning" (by decide) (by decide)

/-! ## Claim C8 -/

mutual

/-- Preorder flattening of a part: the part's own (mime, data) first,
then its sub-parts depth-first, left to right. -/
def partFlat : Part → List (Option String × Option String)
  | .node m d ps => (m, d) :: partsFlatL ps

def partsFlatL : List Part → List (Option String × Option String)
  | [] => []
  | p :: ps => partFlat p ++ partsFlatL ps

end

/-- A part that can claim the `html` slot: mime contains `"text/html"`
and it has truthy body data. -/
def matchHtml (pr : Option String × Option String) : Bool :=
  (match pr.1 with
   | some m => containsSub m "text/html"
   | none => false) && optTruthy pr.2

/-- A part that can claim the `text` slot. -/
def matchText (pr : Option String × Option String) : Bool :=
  (match pr.1 with
   | some m => containsSub m "text/plain"
   | none => false) && optTruthy pr.2

theorem optTruthy_some (s : String) : optTruthy (some s) = jsTruthy s := rfl

theorem partStep_html_eq (decode : String → String) (st : Bodies)
    (m d : Option String) :
    (partStep decode st m d).html =
      if matchHtml (m, d) && !(optTruthy st.html) then some (decode (d.getD ""))
      else st.html := by
  rcases m with _ | mm
  · unfold partStep
    simp only [matchHtml, Bool.false_and, Bool.not_false, Bool.and_false,
      Bool.false_eq_true, if_false]
  · rcases d with _ | dd
    · unfold partStep
      simp only [matchHtml, optTruthy, Bool.and_false, Bool.false_and,
        Bool.false_eq_true, if_false]
    · cases hcb : containsSub mm "text/html" <;>
        cases hjb : jsTruthy dd <;>
        cases hop : optTruthy st.html <;>
        simp only [partStep, matchHtml, hcb, hjb, hop, Option.getD_some,
          optTruthy_some, Bool.and_true, Bool.true_and, Bool.and_false,
          Bool.false_and, Bool.not_true, Bool.not_false, Bool.and_self,
          if_true, if_false, Bool.true_eq_false, Bool.false_eq_true,
          ite_false, ite_true] <;>
        first
          | rfl
          | (split <;> rfl)

theorem partStep_text_eq (decode : String → String) (st : Bodies)
    (m d : Option String) :
    (partStep decode st m d).text =
      if matchText (m, d) && !(optTruthy st.text) then some (decode (d.getD ""))
      else st.text := by
  rcases m with _ | mm
  · unfold partStep
    simp only [matchText, Bool.false_and, Bool.and_false,
      Bool.false_eq_true, if_false]
  · rcases d with _ | dd
    · unfold partStep
      simp only [matchText, optTruthy, Bool.and_false, Bool.false_and,
        Bool.false_eq_true, if_false]
    · have htext1 : (if containsSub mm "text/html" && (jsTruthy dd && !optTruthy st.html)
          then { st with html := some (decode dd) } else st).text = st.text := by
        split <;> rfl
      have hhtml1 : (if containsSub mm "text/html" && (jsTruthy dd && !optTruthy st.html)
          then { st with html := some (decode dd) } else st).html = st.html ∨
          (if containsSub mm "text/html" && (jsTruthy dd && !optTruthy st.html)
          then { st with html := some (decode dd) } else st).html = some (decode dd) := by
        split
        · right; rfl
        · left; rfl
      cases hcb : containsSub mm "text/plain" <;>
        cases hjb : jsTruthy dd <;>
        cases hop : optTruthy st.text <;>
        simp only [partStep, matchText, hcb, hjb, hop, htext1, Option.getD_some,
          optTruthy_some, Bool.and_true, Bool.true_and, Bool.and_false,
          Bool.false_and, Bool.not_true, Bool.not_false, Bool.and_self,
          if_true, if_false, Bool.true_eq_false, Bool.false_eq_true,
          ite_false, ite_true] <;>
        first
          | rfl
          | (split <;> rfl)
          | (split <;> simp [hop])

mutual

/-- Once the `html` slot is truthy it is never overwritten (part). -/
theorem visitPart_html_frozen (decode : String → String) (st : Bodies) (p : Part)
    (h : optTruthy st.html = true) : (visitPart decode st p).html = st.html := by
  cases p with
  | node m d ps =>
    rw [visitPart]
    have hps : (partStep decode st m d).html = st.html := by
      rw [partStep_html_eq]
      simp [h]
    rw [visitParts_html_frozen decode _ ps (by rw [hps]; exact h), hps]

/-- Once the `html` slot is truthy it is never overwritten (list). -/
theorem visitParts_html_frozen (decode : String → String) (st : Bodies)
    (l : List Part) (h : optTruthy st.html = true) :
    (visitParts decode st l).html = st.html := by
  cases l with
  | nil => rw [visitParts]
  | cons p ps =>
    rw [visitParts]
    rw [visitParts_html_frozen decode _ ps
      (by rw [visitPart_html_frozen decode st p h]; exact h)]
    exact visitPart_html_frozen decode st p h

end

mutual

/-- Once the `text` slot is truthy it is never overwritten (part). -/
theorem visitPart_text_frozen (decode : String → String) (st : Bodies) (p : Part)
    (h : optTruthy st.text = true) : (visitPart decode st p).text = st.text := by
  cases p with
  | node m d ps =>
    rw [visitPart]
    have hps : (partStep decode st m d).text = st.text := by
      rw [partStep_text_eq]
      simp [h]
    rw [visitParts_text_frozen decode _ ps (by rw [hps]; exact h), hps]

/-- Once the `text` slot is truthy it is never overwritten (list). -/
theorem visitParts_text_frozen (decode : String → String) (st : Bodies)
    (l : List Part) (h : optTruthy st.text = true) :
    (visitParts decode st l).text = st.text := by
  cases l with
  | nil => rw [visitParts]
  | cons p ps =>
    rw [visitParts]
    rw [visitParts_text_frozen decode _ ps
      (by rw [visitPart_text_frozen decode st p h]; exact h)]
    exact visitPart_text_frozen decode st p h

end

mutual

/-- While the `html` slot is falsy, the traversal fills it with the
decoded payload of the first matching part in preorder (part). -/
theorem visitPart_html_find (decode : String → String)
    (hdec : ∀ x, decode x ≠ "") (st : Bodies) (p : Part)
    (h : optTruthy st.html = false) :
    (visitPart decode st p).html =
      (match (partFlat p).find? matchHtml with
       | some pr => pr.2.map decode
       | none => st.html) := by
  cases p with
  | node m d ps =>
    rw [visitPart, partFlat]
    cases hm : matchHtml (m, d) with
    | true =>
      rw [List.find?_cons_of_pos _ hm]
      have hset : (partStep decode st m d).html = some (decode (d.getD "")) := by
        rw [partStep_html_eq]
        simp [hm, h]
      have htr : optTruthy (partStep decode st m d).html = true := by
        rw [hset, optTruthy_some]
        simpa [jsTruthy] using hdec (d.getD "")
      rw [visitParts_html_frozen decode _ ps htr, hset]
      rcases d with _ | dd
      · simp [matchHtml, optTruthy] at hm
      · rfl
    | false =>
      rw [List.find?_cons_of_neg _ (by simp [hm])]
      have hkeep : (partStep decode st m d).html = st.html := by
        rw [partStep_html_eq]
        simp [hm]
      rw [visitParts_html_find decode hdec _ ps (by rw [hkeep]; exact h), hkeep]

/-- While the `html` slot is falsy, the traversal fills it with the
decoded payload of the first matching part in preorder (list). -/
theorem visitParts_html_find (decode : String → String)
    (hdec : ∀ x, decode x ≠ "") (st : Bodies) (l : List Part)
    (h : optTruthy st.html = false) :
    (visitParts decode st l).html =
      (match (partsFlatL l).find? matchHtml with
       | some pr => pr.2.map decode
       | none => st.html) := by
  cases l with
  | nil =>
    rw [visitParts, partsFlatL]
    rfl
  | cons p ps =>
    rw [visitParts, partsFlatL, List.find?_append]
    rcases hfp : (partFlat p).find? matchHtml with _ | pr
    · have h1 := visitPart_html_find decode hdec st p h
      rw [hfp] at h1
      simp only [Option.none_or]
      rw [visitParts_html_find decode hdec _ ps (by rw [h1]; exact h), h1]
    · have h1 := visitPart_html_find decode hdec st p h
      rw [hfp] at h1
      simp only [Option.or_some]
      have hmm := List.find?_some hfp
      have htr : optTruthy (visitPart decode st p).html = true := by
        rw [h1]
        rcases pr with ⟨prm, prd⟩
        rcases prd with _ | dd
        · simp [matchHtml, optTruthy] at hmm
        · simp only [Option.map_some', optTruthy_some]
          simpa [jsTruthy] using hdec dd
      rw [visitParts_html_frozen decode _ ps htr, h1]

end

mutual

/-- While the `text` slot is falsy, the traversal fills it with the
decoded payload of the first matching part in preorder (part). -/
theorem visitPart_text_find (decode : String → String)
    (hdec : ∀ x, decode x ≠ "") (st : Bodies) (p : Part)
    (h : optTruthy st.text = false) :
    (visitPart decode st p).text =
      (match (partFlat p).find? matchText with
       | some pr => pr.2.map decode
       | none => st.text) := by
  cases p with
  | node m d ps =>
    rw [visitPart, partFlat]
    cases hm : matchText (m, d) with
    | true =>
      rw [List.find?_cons_of_pos _ hm]
      have hset : (partStep decode st m d).text = some (decode (d.getD "")) := by
        rw [partStep_text_eq]
        simp [hm, h]
      have htr : optTruthy (partStep decode st m d).text = true := by
        rw [hset, optTruthy_some]
        simpa [jsTruthy] using hdec (d.getD "")
      rw [visitParts_text_frozen decode _ ps htr, hset]
      rcases d with _ | dd
      · simp [matchText, optTruthy] at hm
      · rfl
    | false =>
      rw [List.find?_cons_of_neg _ (by simp [hm])]
      have hkeep : (partStep decode st m d).text = st.text := by
        rw [partStep_text_eq]
        simp [hm]
      rw [visitParts_text_find decode hdec _ ps (by rw [hkeep]; exact h), hkeep]

/-- While the `text` slot is falsy, the traversal fills it with the
decoded payload of the first matching part in preorder (list). -/
theorem visitParts_text_find (decode : String → String)
    (hdec : ∀ x, decode x ≠ "") (st : Bodies) (l : List Part)
    (h : optTruthy st.text = false) :
    (visitParts decode st l).text =
      (match (partsFlatL l).find? matchText with
       | some pr => pr.2.map decode
       | none => st.text) := by
  cases l with
  | nil =>
    rw [visitParts, partsFlatL]
    rfl
  | cons p ps =>
    rw [visitParts, partsFlatL, List.find?_append]
    rcases hfp : (partFlat p).find? matchText with _ | pr
    · have h1 := visitPart_text_find decode hdec st p h
      rw [hfp] at h1
      simp only [Option.none_or]
      rw [visitParts_text_find decode hdec _ ps (by rw [h1]; exact h), h1]
    · have h1 := visitPart_text_find decode hdec st p h
      rw [hfp] at h1
      simp only [Option.or_some]
      have hmm := List.find?_some hfp
      have htr : optTruthy (visitPart decode st p).text = true := by
        rw [h1]
        rcases pr with ⟨prm, prd⟩
        rcases prd with _ | dd
        · simp [matchText, optTruthy] at hmm
        · simp only [Option.map_some', optTruthy_some]
          simpa [jsTruthy] using hdec dd
      rw [visitParts_text_frozen decode _ ps htr, h1]

end

/-- C8: body normalization — a payload with truthy inline data is
single-part: its decoded body is assigned to `html` or `text` by its
mime type (default `"text/plain"`); otherwise the part tree is searched
and each slot receives the decoded payload of the first part in
outer-before-inner (preorder) traversal whose mime type contains
`"text/html"` / `"text/plain"` and whose data is truthy (first match
wins per type); and the canonical body is `text` when truthy, else
`html` when truthy, else the provider-supplied snippet. -/
theorem claim_C8_body_normalization :
    (∀ (decode : String → String) m d children, jsTruthy d = true →
      extractBodies decode (some (.node m (some d) children)) =
        (if containsSub (jsOr (m.getD "") "text/plain") "html" = true
         then { html := some (decode d), text := none }
         else { html := none, text := some (decode d) })) ∧
    (∀ (decode : String → String), (∀ x, decode x ≠ "") →
      ∀ m d children, optTruthy d = false →
      ((extractBodies decode (some (.node m d children))).html =
        (match (partsFlatL children).find? matchHtml with
         | some pr => pr.2.map decode
         | none => none) ∧
       (extractBodies decode (some (.node m d children))).text =
        (match (partsFlatL children).find? matchText with
         | some pr => pr.2.map decode
         | none => none))) ∧
    (∀ b s, jsTruthy (b.text.getD "") = true → canonicalBody b s = b.text.getD "") ∧
    (∀ b s, jsTruthy (b.text.getD "") = false → jsTruthy (b.html.getD "") = true →
      canonicalBody b s = b.html.getD "") ∧
    (∀ b s, jsTruthy (b.text.getD "") = false → jsTruthy (b.html.getD "") = false →
      canonicalBody b s = jsOr s "") := by
  refine ⟨?_, ?_, ?_, ?_, ?_⟩
  · intro decode m d children hd
    unfold extractBodies
    simp only [hd, if_true]
  · intro decode hdec m d children hd
    have hvisit : extractBodies decode (some (.node m d children)) =
        visitParts decode { html := none, text := none } children := by
      unfold extractBodies
      rcases d with _ | dd
      · rfl
      · have : jsTruthy dd = false := by simpa [optTruthy] using hd
        simp only [this, Bool.false_eq_true, if_false]
    rw [hvisit]
    constructor
    · rw [visitParts_html_find decode hdec _ children (by simp [optTruthy])]
    · rw [visitParts_text_find decode hdec _ children (by simp [optTruthy])]
  · intro b s ht
    simp [canonicalBody, jsOr, ht]
  · intro b s ht hh
    simp [canonicalBody, jsOr, ht, hh]
  · intro b s ht hh
    simp [canonicalBody, jsOr, ht, hh]

/-- Concrete multipart payload for the C8 witness: a wrapper part with a
`text/plain` part and a `text/html` part nested one level down. -/
def partC8 : Part :=
  .node (some "multipart/alternative") none
    [.node (some "text/plain") (some "cGxhaW4=") [],
     .node (some "multipart/related") none
       [.node (some "text/html") (some "aHRtbA==") []]]

def decodeC8 : String → String := fun x => "decoded:" ++ x

theorem claim_C8_body_normalization_witness :
    (extractBodies decodeC8 (some partC8)).html = some "decoded:aHRtbA==" ∧
    (extractBodies decodeC8 (some partC8)).text = some "decoded:cGxhaW4=" := by
  have hdec : ∀ x, decodeC8 x ≠ "" := by
    intro x h
    have h2 : ("decoded:" ++ x).length = 0 := by
      have hx : decodeC8 x = "decoded:" ++ x := rfl
      rw [← hx, h]
      rfl
    rw [String.length_append] at h2
    have h8 : "decoded:".length = 8 := rfl
    omega
  have h := claim_C8_body_normalization.2.1 decodeC8 hdec
    (some "multipart/alternative") none
    [.node (some "text/plain") (some "cGxhaW4=") [],
     .node (some "multipart/related") none
       [.node (some "text/html") (some "aHRtbA==") []]] (by decide)
  exact ⟨h.1.trans (by decide), h.2.trans (by decide)⟩

/-! ## Claim C7

The claim says `validateTokens` reports `{valid: false}` *exactly* when
a provider call failed with 401/403.  The code has one more
`{valid: false}` exit: with only a refresh token stored, a refresh
attempt that *succeeds* but yields no token
(`if (!at || !at.token) return { valid: false }`) also reports invalid
without any 401/403 failure. -/

/-- The stored pair activates the refresh-only preamble
(`!tokens.accessToken && tokens.refreshToken`). -/
def refreshPathActive (tokens : AuthTokens) : Prop :=
  (!(optTruthy tokens.accessToken) && optTruthy tokens.refreshToken) = true

/-- Some provider call made during this `validateTokens` run failed with
a 401/403 error code: either the refresh attempt itself, or the
`getProfile` probe (which runs only when the preamble continues). -/
def providerAuthFailure (env : OAuthEnv) (tokens : AuthTokens) : Prop :=
  (refreshPathActive tokens ∧
    ∃ e, env.refreshAccessToken = .error e ∧ isAuthCode e = true) ∨
  ((∃ r0, refreshPreamble env tokens = .go r0) ∧
    ∃ e, env.profile = .error e ∧ isAuthCode e = true)

theorem validateCatch_error (err : GCallError) (ae : AppError)
    (h : validateCatch err = .error ae) :
    ae = externalServiceError "Gmail" ("Token validation failed: " ++ err.message) ∧
      isAuthCode err = false := by
  unfold validateCatch at h
  split at h
  · exact absurd h (by simp)
  · next hc =>
    simp only [Except.error.injEq] at h
    exact ⟨h.symm, by simpa using hc⟩

theorem validateCatch_ok (err : GCallError) (r : TokenValidation)
    (h : validateCatch err = .ok r) :
    r = { valid := false, refreshedTokens := none } ∧ isAuthCode err = true := by
  unfold validateCatch at h
  split at h
  · next hc => simp only [Except.ok.injEq] at h; exact ⟨h.symm, hc⟩
  · exact absurd h (by simp)

/-- Counterexample to C7 as stated: only a refresh token is stored, the
refresh attempt succeeds but returns no token, the profile probe would
succeed — no provider call fails with 401/403, yet `validateTokens`
returns `{ valid: false }`. -/
def envCounterC7 : OAuthEnv :=
  { refreshAccessToken := .ok none, profile := .ok (),
    credAfterAccess := none, credAfterRefresh := none }

def tokCounterC7 : AuthTokens := { accessToken := none, refreshToken := some "rt" }

theorem claim_C7_counterexample :
    validateTokens envCounterC7 tokCounterC7 =
      .ok { valid := false, refreshedTokens := none } ∧
    ¬ providerAuthFailure envCounterC7 tokCounterC7 := by
  refine ⟨by decide, ?_⟩
  intro h
  rcases h with ⟨_, e, he, _⟩ | ⟨_, e, he, _⟩
  · exact Except.noConfusion he
  · exact Except.noConfusion he

/-- The conjunction the amended C7 asserts, for one `env`/`tokens`
pair: (i) `{valid: false}` exactly on a 401/403 provider failure or a
token-less refresh success; (ii) raised errors are Gmail-named
`ExternalServiceError`s; (iii) success reports a rotated access token
as `refreshedTokens`. -/
def validateAmendedSpec (env : OAuthEnv) (tokens : AuthTokens) : Prop :=
  ((∃ r, validateTokens env tokens = .ok r ∧ r.valid = false) ↔
    (providerAuthFailure env tokens ∨
      (refreshPathActive tokens ∧ env.refreshAccessToken = .ok none))) ∧
  (∀ ae, validateTokens env tokens = .error ae →
    ∃ m, ae = externalServiceError "Gmail" ("Token validation failed: " ++ m)) ∧
  (∀ r0 la, refreshPreamble env tokens = .go r0 → env.profile = .ok () →
    getRefreshedTokensModel env = some la →
    optTruthy la.accessToken = true → ¬(la.accessToken = tokens.accessToken) →
    validateTokens env tokens = .ok
      { valid := true,
        refreshedTokens := some
          { accessToken := la.accessToken,
            refreshToken :=
              match la.refreshToken with
              | some r => some r
              | none => tokens.refreshToken } })

/-- The profile-probe phase, shared by both preamble outcomes that
continue. -/
theorem validate_profile_cases (env : OAuthEnv) (tokens : AuthTokens)
    (r0 : Option AuthTokens) (hpre : refreshPreamble env tokens = .go r0)
    (hnoleft : ¬(refreshPathActive tokens ∧
      ∃ e, env.refreshAccessToken = .error e ∧ isAuthCode e = true))
    (hnonone : ¬(refreshPathActive tokens ∧ env.refreshAccessToken = .ok none)) :
    validateAmendedSpec env tokens := by
  rcases hp : env.profile with err | u
  · have hvt : validateTokens env tokens = validateCatch err := by
      unfold validateTokens
      rw [hpre, hp]
    refine ⟨?_, ?_, ?_⟩
    · constructor
      · intro ⟨r, hr, _⟩
        rw [hvt] at hr
        rcases validateCatch_ok err r hr with ⟨_, hauth⟩
        exact .inl (.inr ⟨⟨r0, hpre⟩, err, hp, hauth⟩)
      · intro h
        rcases h with (hl | ⟨_, e, he, hauth⟩) | hn
        · exact absurd hl hnoleft
        · rw [hp] at he
          injection he with he
          subst he
          refine ⟨{ valid := false, refreshedTokens := none }, ?_, rfl⟩
          rw [hvt]
          unfold validateCatch
          rw [if_pos hauth]
        · exact absurd hn hnonone
    · intro ae hae
      rw [hvt] at hae
      exact ⟨err.message, (validateCatch_error err ae hae).1⟩
    · intro r0x la hr0x hpok _ _ _
      rw [hp] at hpok
      exact Except.noConfusion hpok
  · have hvt : validateTokens env tokens = .ok
        { valid := true,
          refreshedTokens :=
            match getRefreshedTokensModel env with
            | some latest =>
              if optTruthy latest.accessToken &&
                  !(latest.accessToken == tokens.accessToken) then
                some { accessToken := latest.accessToken,
                       refreshToken :=
                         match latest.refreshToken with
                         | some r => some r
                         | none => tokens.refreshToken }
              else r0
            | none => r0 } := by
      unfold validateTokens
      rw [hpre, hp]
    refine ⟨?_, ?_, ?_⟩
    · constructor
      · intro ⟨r, hr, hrv⟩
        rw [hvt] at hr
        injection hr with hr
        rw [← hr] at hrv
        exact absurd hrv (by simp)
      · intro h
        rcases h with (hl | ⟨_, e, he, _⟩) | hn
        · exact absurd hl hnoleft
        · rw [hp] at he
          exact Except.noConfusion he
        · exact absurd hn hnonone
    · intro ae hae
      rw [hvt] at hae
      exact Except.noConfusion hae
    · intro r0x la hr0x hpok hlat hacc hneq
      rw [hvt]
      have hbeq : (la.accessToken == tokens.accessToken) = false := by
        simpa using hneq
      rw [hlat]
      simp only [hacc, hbeq, Bool.not_false, Bool.and_self, if_true]

/-- C7 (amended): `validateTokens` returns `{valid: false}` exactly when
a provider call fails with 401/403 **or** the refresh-only preamble's
refresh attempt succeeds without producing an access token; every other
transport error raises an `ExternalServiceError` naming the Gmail
service; and on success, a provider-rotated access token (differing from
the stored one) is returned as `refreshedTokens`. -/
theorem claim_C7_validate_tokens_amended :
    ∀ env tokens, validateAmendedSpec env tokens := by
  intro env tokens
  by_cases hact : (!(optTruthy tokens.accessToken) && optTruthy tokens.refreshToken) = true
  · rcases hra : env.refreshAccessToken with err | ot
    · have hpre : refreshPreamble env tokens = .done (validateCatch err) := by
        unfold refreshPreamble
        rw [if_pos hact, hra]
      have hvt : validateTokens env tokens = validateCatch err := by
        unfold validateTokens
        rw [hpre]
      refine ⟨?_, ?_, ?_⟩
      · constructor
        · intro ⟨r, hr, _⟩
          rw [hvt] at hr
          rcases validateCatch_ok err r hr with ⟨_, hauth⟩
          exact .inl (.inl ⟨hact, err, hra, hauth⟩)
        · intro h
          rcases h with (⟨_, e, he, hauth⟩ | ⟨⟨r0, hr0⟩, _⟩) | ⟨_, hnone⟩
          · rw [hra] at he
            injection he with he
            subst he
            refine ⟨{ valid := false, refreshedTokens := none }, ?_, rfl⟩
            rw [hvt]
            unfold validateCatch
            rw [if_pos hauth]
          · rw [hpre] at hr0
            exact RefreshStep.noConfusion hr0
          · rw [hra] at hnone
            exact Except.noConfusion hnone
      · intro ae hae
        rw [hvt] at hae
        exact ⟨err.message, (validateCatch_error err ae hae).1⟩
      · intro r0 la hr0 _ _ _ _
        rw [hpre] at hr0
        exact RefreshStep.noConfusion hr0
    · rcases ot with _ | t
      · have hpre : refreshPreamble env tokens =
            .done (.ok { valid := false, refreshedTokens := none }) := by
          unfold refreshPreamble
          rw [if_pos hact, hra]
        have hvt : validateTokens env tokens =
            .ok { valid := false, refreshedTokens := none } := by
          unfold validateTokens
          rw [hpre]
        refine ⟨?_, ?_, ?_⟩
        · constructor
          · intro _
            exact .inr ⟨hact, hra⟩
          · intro _
            exact ⟨_, hvt, rfl⟩
        · intro ae hae
          rw [hvt] at hae
          exact Except.noConfusion hae
        · intro r0 la hr0 _ _ _ _
          rw [hpre] at hr0
          exact RefreshStep.noConfusion hr0
      · have hpre : refreshPreamble env tokens =
            .go (some { accessToken := some t, refreshToken := tokens.refreshToken }) := by
          unfold refreshPreamble
          rw [if_pos hact, hra]
        refine validate_profile_cases env tokens _ hpre ?_ ?_
        · intro ⟨_, e, he, _⟩
          rw [hra] at he
          exact Except.noConfusion he
        · intro ⟨_, hn⟩
          rw [hra] at hn
          injection hn with hn
          exact Option.noConfusion hn
  · have hpre : refreshPreamble env tokens = .go none := by
      unfold refreshPreamble
      rw [if_neg hact]
    refine validate_profile_cases env tokens _ hpre ?_ ?_
    · intro ⟨hr, _⟩
      exact hact hr
    · intro ⟨hr, _⟩
      exact hact hr

/-- Concrete rotation scenario for the C7 witness: access token stored,
profile probe succeeds, and the client ends up holding a different
access token, which is reported back as `refreshedTokens`. -/
def envWitC7 : OAuthEnv :=
  { refreshAccessToken := .ok none, profile := .ok (),
    credAfterAccess := some "newAT", credAfterRefresh := some "r2" }

def tokWitC7 : AuthTokens := { accessToken := some "oldAT", refreshToken := some "r1" }

theorem claim_C7_validate_tokens_amended_witness :
    validateTokens envWitC7 tokWitC7 = .ok
      { valid := true,
        refreshedTokens := some { accessToken := some "newAT",
                                  refreshToken := some "r2" } } := by
  have h := (claim_C7_validate_tokens_amended envWitC7 tokWitC7).2.2 none
    ⟨some "newAT", some "r2"⟩ rfl rfl (by decide) (by decide) (by decide)
  exact h.trans (by decide)

/-! ## Claims C1 and C2: storage-level batch upsert

The natural key of an email row is `(gmailId, userId)` — the lookup key
of `upsertEmailInternal`.  `WFStore` is the well-formedness the real
store maintains: generated ids are below the id counter and distinct,
and the natural key is unique (one row per remote message per user). -/

def inputKey (e : EmailUpsertInput) : String × String := (e.gmailId, e.userId)

def emailKey (r : EmailRecord) : String × String := (r.gmailId, r.userId)

def hasKey (s : Store) (k : String × String) : Prop := k ∈ s.emails.map emailKey

def WFStore (s : Store) : Prop :=
  (∀ r ∈ s.emails, r.id < s.nextId) ∧
  (s.emails.map (fun r => r.id)).Nodup ∧
  (s.emails.map emailKey).Nodup

/-- The lookup predicate of `upsertEmailInternal`. -/
def keyPred (e : EmailUpsertInput) : EmailRecord → Bool :=
  fun r => r.gmailId == e.gmailId && r.userId == e.userId

theorem keyPred_iff (e : EmailUpsertInput) (r : EmailRecord) :
    keyPred e r = true ↔ emailKey r = inputKey e := by
  simp [keyPred, emailKey, inputKey, Prod.ext_iff]

theorem applyData_applyData (r : EmailRecord) (a b : EmailUpsertInput) :
    applyData (applyData r a) b = applyData r b := rfl

theorem applyData_key (r : EmailRecord) (e : EmailUpsertInput) :
    emailKey (applyData r e) = (r.gmailId, e.userId) := rfl

theorem applyData_key_of_pred (r : EmailRecord) (e : EmailUpsertInput)
    (h : keyPred e r = true) : emailKey (applyData r e) = emailKey r := by
  have hk := (keyPred_iff e r).mp h
  have hu : r.userId = e.userId := congrArg Prod.snd hk
  show (r.gmailId, e.userId) = (r.gmailId, r.userId)
  rw [hu]

theorem newRecord_self (n : Nat) (e : EmailUpsertInput) :
    applyData (newRecord n e) e = newRecord n e := rfl

theorem newRecord_key (n : Nat) (e : EmailUpsertInput) :
    emailKey (newRecord n e) = inputKey e := rfl

/-- `upsertEmailInternal` on a rejected input: failure result, store
untouched. -/
theorem internal_rejected (reject : RejectOracle) (s : Store) (e : EmailUpsertInput)
    (msg : String) (h : reject e = some msg) :
    upsertEmailInternal reject s e =
      ({ gmailId := e.gmailId, success := false, created := false,
         email := none, error := some msg }, s) := by
  unfold upsertEmailInternal
  rw [h]

/-- `upsertEmailInternal` on a fresh key: insert. -/
theorem internal_created (reject : RejectOracle) (s : Store) (e : EmailUpsertInput)
    (hrej : reject e = none) (hfind : s.emails.find? (keyPred e) = none) :
    upsertEmailInternal reject s e =
      ({ gmailId := e.gmailId, success := true, created := true,
         email := some (mapToEmailMessage (newRecord s.nextId e)), error := none },
       { s with emails := s.emails ++ [newRecord s.nextId e],
                nextId := s.nextId + 1 }) := by
  unfold upsertEmailInternal
  rw [hrej]
  have : s.emails.find? (fun r => r.gmailId == e.gmailId && r.userId == e.userId) = none :=
    hfind
  rw [this]

/-- `upsertEmailInternal` on an existing key: in-place update. -/
theorem internal_updated (reject : RejectOracle) (s : Store) (e : EmailUpsertInput)
    (ex : EmailRecord) (hrej : reject e = none)
    (hfind : s.emails.find? (keyPred e) = some ex) :
    upsertEmailInternal reject s e =
      ({ gmailId := e.gmailId, success := true, created := false,
         email := some (mapToEmailMessage (applyData ex e)), error := none },
       { s with emails := s.emails.map (fun r => if r.id == ex.id then applyData r e else r) }) := by
  unfold upsertEmailInternal
  rw [hrej]
  have : s.emails.find? (fun r => r.gmailId == e.gmailId && r.userId == e.userId) = some ex :=
    hfind
  rw [this]

/-- A key is present iff the lookup finds a row. -/
theorem hasKey_iff_find (s : Store) (e : EmailUpsertInput) :
    hasKey s (inputKey e) ↔ (s.emails.find? (keyPred e)).isSome := by
  rw [List.find?_isSome]
  constructor
  · intro hk
    rcases List.mem_map.mp hk with ⟨r, hr, hkey⟩
    exact ⟨r, hr, (keyPred_iff e r).mpr hkey⟩
  · intro ⟨r, hr, hp⟩
    exact List.mem_map.mpr ⟨r, hr, (keyPred_iff e r).mp hp⟩

/-- The result of an accepted upsert: success, `created` exactly on a
fresh key. -/
theorem internal_result_ok (reject : RejectOracle) (s : Store) (e : EmailUpsertInput)
    (hrej : reject e = none) :
    (upsertEmailInternal reject s e).1.success = true ∧
    (upsertEmailInternal reject s e).1.gmailId = e.gmailId ∧
    ((upsertEmailInternal reject s e).1.created = true ↔ ¬ hasKey s (inputKey e)) := by
  rcases hfind : s.emails.find? (keyPred e) with _ | ex
  · rw [internal_created reject s e hrej hfind]
    refine ⟨rfl, rfl, ?_⟩
    simp only [true_iff]
    intro hk
    have := (hasKey_iff_find s e).mp hk
    rw [hfind] at this
    simp at this
  · rw [internal_updated reject s e ex hrej hfind]
    refine ⟨rfl, rfl, ?_⟩
    simp only [Bool.false_eq_true, false_iff, not_not]
    exact (hasKey_iff_find s e).mpr (by rw [hfind]; rfl)

/-- Members of an id-unique row list sharing an id are equal. -/
theorem id_inj (s : Store) (hwf : WFStore s) (r ex : EmailRecord)
    (hr : r ∈ s.emails) (hex : ex ∈ s.emails) (h : r.id = ex.id) : r = ex :=
  List.inj_on_of_nodup_map hwf.2.1 hr hex h

/-- The update map leaves the key list untouched. -/
theorem update_keys (s : Store) (e : EmailUpsertInput) (ex : EmailRecord)
    (hwf : WFStore s) (hfind : s.emails.find? (keyPred e) = some ex) :
    (s.emails.map (fun r => if r.id == ex.id then applyData r e else r)).map emailKey =
      s.emails.map emailKey := by
  rw [List.map_map]
  refine List.map_congr_left ?_
  intro r hr
  simp only [Function.comp_apply]
  by_cases hid : (r.id == ex.id) = true
  · rw [if_pos hid]
    have hre : r = ex :=
      id_inj s hwf r ex hr (List.mem_of_find?_eq_some hfind) (by simpa using hid)
    subst hre
    exact applyData_key_of_pred r e (List.find?_some hfind)
  · rw [if_neg hid]

/-- The update map leaves the id list untouched. -/
theorem update_ids (s : Store) (e : EmailUpsertInput) (ex : EmailRecord) :
    (s.emails.map (fun r => if r.id == ex.id then applyData r e else r)).map
        (fun r => r.id) =
      s.emails.map (fun r => r.id) := by
  rw [List.map_map]
  refine List.map_congr_left ?_
  intro r _
  simp only [Function.comp_apply]
  by_cases hid : (r.id == ex.id) = true
  · rw [if_pos hid]
    rfl
  · rw [if_neg hid]

/-- `upsertEmailInternal` preserves store well-formedness. -/
theorem internal_WF (reject : RejectOracle) (s : Store) (e : EmailUpsertInput)
    (hwf : WFStore s) : WFStore (upsertEmailInternal reject s e).2 := by
  rcases hrej : reject e with _ | msg
  · rcases hfind : s.emails.find? (keyPred e) with _ | ex
    · rw [internal_created reject s e hrej hfind]
      have hfresh : ∀ r ∈ s.emails, emailKey r ≠ inputKey e := by
        intro r hr hk
        have := List.find?_eq_none.mp hfind r hr
        exact this ((keyPred_iff e r).mpr hk)
      refine ⟨?_, ?_, ?_⟩
      · intro r hr
        rcases List.mem_append.mp hr with h | h
        · exact Nat.lt_succ_of_lt (hwf.1 r h)
        · simp only [List.mem_singleton] at h
          subst h
          exact Nat.lt_succ_self _
      · rw [List.map_append]
        apply List.Nodup.append hwf.2.1 (by simp)
        intro x hx hy
        simp only [List.map_cons, List.map_nil, List.mem_singleton] at hy
        subst hy
        rcases List.mem_map.mp hx with ⟨r, hr, hid⟩
        have hb := hwf.1 r hr
        have hnew : (newRecord s.nextId e).id = s.nextId := rfl
        omega
      · rw [List.map_append]
        apply List.Nodup.append hwf.2.2 (by simp)
        intro x hx hy
        simp only [List.map_cons, List.map_nil, List.mem_singleton, newRecord_key] at hy
        subst hy
        rcases List.mem_map.mp hx with ⟨r, hr, hk⟩
        exact hfresh r hr hk
    · rw [internal_updated reject s e ex hrej hfind]
      refine ⟨?_, ?_, ?_⟩
      · intro r hr
        rcases List.mem_map.mp hr with ⟨r0, hr0, heq⟩
        have : r.id = r0.id := by
          rw [← heq]
          by_cases hid : (r0.id == ex.id) = true
          · rw [if_pos hid]
            rfl
          · rw [if_neg hid]
        rw [this]
        exact hwf.1 r0 hr0
      · rw [update_ids s e ex]
        exact hwf.2.1
      · rw [update_keys s e ex hwf hfind]
        exact hwf.2.2
  · rw [internal_rejected reject s e msg hrej]
    exact hwf

/-- Key presence is monotone under one upsert step. -/
theorem internal_hasKey_mono (reject : RejectOracle) (s : Store)
    (e : EmailUpsertInput) (hwf : WFStore s) (k : String × String)
    (h : hasKey s k) : hasKey (upsertEmailInternal reject s e).2 k := by
  rcases hrej : reject e with _ | msg
  · rcases hfind : s.emails.find? (keyPred e) with _ | ex
    · rw [internal_created reject s e hrej hfind]
      unfold hasKey at h ⊢
      simp only [List.map_append, List.mem_append]
      exact .inl h
    · rw [internal_updated reject s e ex hrej hfind]
      unfold hasKey at h ⊢
      simp only
      rw [update_keys s e ex hwf hfind]
      exact h
  · rw [internal_rejected reject s e msg hrej]
    exact h

/-- After an accepted upsert the input's key is present. -/
theorem internal_hasKey_own (reject : RejectOracle) (s : Store)
    (e : EmailUpsertInput) (hwf : WFStore s) (hrej : reject e = none) :
    hasKey (upsertEmailInternal reject s e).2 (inputKey e) := by
  rcases hfind : s.emails.find? (keyPred e) with _ | ex
  · rw [internal_created reject s e hrej hfind]
    unfold hasKey
    simp only [List.map_append, List.mem_append, List.map_cons, List.map_nil,
      List.mem_singleton, newRecord_key]
    exact .inr trivial
  · rw [internal_updated reject s e ex hrej hfind]
    unfold hasKey
    simp only
    rw [update_keys s e ex hwf hfind]
    exact List.mem_map.mpr ⟨ex, List.mem_of_find?_eq_some hfind,
      (keyPred_iff e ex).mp (List.find?_some hfind)⟩

/-- Members of a key-unique row list sharing a key are equal. -/
theorem key_inj (s : Store) (hwf : WFStore s) (r ex : EmailRecord)
    (hr : r ∈ s.emails) (hex : ex ∈ s.emails) (h : emailKey r = emailKey ex) :
    r = ex :=
  List.inj_on_of_nodup_map hwf.2.2 hr hex h

/-- The rows holding key `k`. -/
def keyRows (s : Store) (k : String × String) : List EmailRecord :=
  s.emails.filter (fun r => emailKey r == k)

theorem filter_map_eq {α : Type} (p : α → Bool) (f : α → α) :
    ∀ l : List α, (∀ r ∈ l, p (f r) = p r ∧ (p r = true → f r = r)) →
      (l.map f).filter p = l.filter p
  | [], _ => rfl
  | a :: t, h => by
    have ht := filter_map_eq p f t (fun r hr => h r (List.mem_cons_of_mem a hr))
    rcases h a (List.mem_cons_self a t) with ⟨hp, hid⟩
    cases hpa : p a with
    | false =>
      simp only [List.map_cons, List.filter_cons, hp, hpa]
      simpa using ht
    | true =>
      simp only [List.map_cons, List.filter_cons, hp, hpa, hid hpa]
      simpa using ht

/-- An upsert of a different key leaves that key's rows untouched. -/
theorem internal_keyRows_other (reject : RejectOracle) (s : Store)
    (e : EmailUpsertInput) (hwf : WFStore s) (k : String × String)
    (hk : k ≠ inputKey e) :
    keyRows (upsertEmailInternal reject s e).2 k = keyRows s k := by
  rcases hrej : reject e with _ | msg
  · rcases hfind : s.emails.find? (keyPred e) with _ | ex
    · rw [internal_created reject s e hrej hfind]
      unfold keyRows
      simp only [List.filter_append]
      have hnil : [newRecord s.nextId e].filter (fun r => emailKey r == k) = [] := by
        simp only [List.filter_cons, List.filter_nil, newRecord_key]
        rw [if_neg]
        simp only [beq_iff_eq]
        exact fun hh => hk hh.symm
      rw [hnil, List.append_nil]
    · rw [internal_updated reject s e ex hrej hfind]
      unfold keyRows
      simp only
      apply filter_map_eq
      intro r hr
      have hexk : emailKey ex = inputKey e :=
        (keyPred_iff e ex).mp (List.find?_some hfind)
      by_cases hid : (r.id == ex.id) = true
      · have hre : r = ex :=
          id_inj s hwf r ex hr (List.mem_of_find?_eq_some hfind) (by simpa using hid)
        subst hre
        rw [if_pos hid]
        constructor
        · rw [applyData_key_of_pred r e (List.find?_some hfind)]
        · intro hp
          simp only [beq_iff_eq] at hp
          rw [hexk] at hp
          exact absurd hp.symm hk
      · rw [if_neg hid]
        exact ⟨rfl, fun _ => rfl⟩
  · rw [internal_rejected reject s e msg hrej]

/-- After an accepted upsert, every row holding the input's key carries
exactly the input's data. -/
def Synced (s : Store) (e : EmailUpsertInput) : Prop :=
  ∀ r ∈ s.emails, emailKey r = inputKey e → applyData r e = r

theorem internal_synced_own (reject : RejectOracle) (s : Store)
    (e : EmailUpsertInput) (hwf : WFStore s) (hrej : reject e = none) :
    Synced (upsertEmailInternal reject s e).2 e := by
  rcases hfind : s.emails.find? (keyPred e) with _ | ex
  · rw [internal_created reject s e hrej hfind]
    intro r hr hkey
    simp only at hr
    rcases List.mem_append.mp hr with h | h
    · have := List.find?_eq_none.mp hfind r h
      exact absurd ((keyPred_iff e r).mpr hkey) this
    · simp only [List.mem_singleton] at h
      subst h
      exact newRecord_self _ _
  · rw [internal_updated reject s e ex hrej hfind]
    intro r hr hkey
    simp only at hr
    rcases List.mem_map.mp hr with ⟨r0, hr0, heq⟩
    have hexmem := List.mem_of_find?_eq_some hfind
    have hexk : emailKey ex = inputKey e :=
      (keyPred_iff e ex).mp (List.find?_some hfind)
    by_cases hid : (r0.id == ex.id) = true
    · have hre : r0 = ex := id_inj s hwf r0 ex hr0 hexmem (by simpa using hid)
      subst hre
      rw [if_pos hid] at heq
      rw [← heq, applyData_applyData]
    · rw [if_neg hid] at heq
      subst heq
      have : r0 = ex := key_inj s hwf r0 ex hr0 hexmem (by rw [hkey, hexk])
      subst this
      simp at hid

theorem internal_synced_other (reject : RejectOracle) (s : Store)
    (e e' : EmailUpsertInput) (hwf : WFStore s)
    (hne : inputKey e' ≠ inputKey e) (hs : Synced s e') :
    Synced (upsertEmailInternal reject s e).2 e' := by
  intro r hr hkey
  have hmem : r ∈ keyRows (upsertEmailInternal reject s e).2 (inputKey e') :=
    List.mem_filter.mpr ⟨hr, by simp [hkey]⟩
  rw [internal_keyRows_other reject s e hwf _ hne] at hmem
  exact hs r (List.mem_filter.mp hmem).1 hkey

theorem batchGo_WF (reject : RejectOracle) :
    ∀ (inputs : List EmailUpsertInput) (s : Store), WFStore s →
      WFStore (upsertBatchGo reject s inputs).2
  | [], _, h => h
  | e :: rest, s, h =>
    batchGo_WF reject rest (upsertEmailInternal reject s e).2 (internal_WF reject s e h)

theorem batchGo_hasKey_mono (reject : RejectOracle) :
    ∀ (inputs : List EmailUpsertInput) (s : Store) (k : String × String),
      WFStore s → hasKey s k → hasKey (upsertBatchGo reject s inputs).2 k
  | [], _, _, _, h => h
  | e :: rest, s, k, hwf, h =>
    batchGo_hasKey_mono reject rest (upsertEmailInternal reject s e).2 k
      (internal_WF reject s e hwf) (internal_hasKey_mono reject s e hwf k h)

theorem batchGo_keys_present (reject : RejectOracle) :
    ∀ (inputs : List EmailUpsertInput) (s : Store), WFStore s →
      (∀ e ∈ inputs, reject e = none) →
      ∀ e ∈ inputs, hasKey (upsertBatchGo reject s inputs).2 (inputKey e)
  | [], _, _, _, e, he => absurd he (List.not_mem_nil e)
  | e0 :: rest, s, hwf, hrej, e, he => by
    rcases List.mem_cons.mp he with rfl | ht
    · exact batchGo_hasKey_mono reject rest _ (inputKey e)
        (internal_WF reject s e hwf)
        (internal_hasKey_own reject s e hwf (hrej e (List.mem_cons_self e rest)))
    · exact batchGo_keys_present reject rest _
        (internal_WF reject s e0 hwf)
        (fun x hx => hrej x (List.mem_cons_of_mem e0 hx)) e ht

theorem batchGo_synced_other (reject : RejectOracle) :
    ∀ (inputs : List EmailUpsertInput) (s : Store) (e' : EmailUpsertInput),
      WFStore s → (∀ e ∈ inputs, inputKey e ≠ inputKey e') → Synced s e' →
      Synced (upsertBatchGo reject s inputs).2 e'
  | [], _, _, _, _, h => h
  | e :: rest, s, e', hwf, hne, h =>
    batchGo_synced_other reject rest _ e'
      (internal_WF reject s e hwf)
      (fun x hx => hne x (List.mem_cons_of_mem e hx))
      (internal_synced_other reject s e e' hwf
        (fun hh => hne e (List.mem_cons_self e rest) hh.symm) h)

/-- The input that writes key `k` last (the batch's last occurrence). -/
def lastInput (inputs : List EmailUpsertInput) (k : String × String) :
    Option EmailUpsertInput :=
  (inputs.filter (fun e => inputKey e == k)).getLast?

theorem getLast?_cons_eq {α : Type} (a : α) (l : List α) :
    (a :: l).getLast? = some (l.getLast?.getD a) := by
  cases l with
  | nil => rfl
  | cons b t =>
    rw [List.getLast?_cons_cons]
    have hne : (b :: t) ≠ [] := by simp
    rcases hl : (b :: t).getLast? with _ | x
    · exact absurd (List.getLast?_eq_none_iff.mp hl) hne
    · rfl

theorem lastInput_cons_ne (e : EmailUpsertInput) (rest : List EmailUpsertInput)
    (k : String × String) (h : inputKey e ≠ k) :
    lastInput (e :: rest) k = lastInput rest k := by
  unfold lastInput
  rw [List.filter_cons_of_neg]
  simpa using h

theorem lastInput_cons_eq (e : EmailUpsertInput) (rest : List EmailUpsertInput)
    (k : String × String) (h : inputKey e = k) :
    lastInput (e :: rest) k = some ((lastInput rest k).getD e) := by
  unfold lastInput
  rw [List.filter_cons_of_pos]
  · exact getLast?_cons_eq e _
  · simpa using h

theorem lastInput_key (inputs : List EmailUpsertInput) (k : String × String)
    (e' : EmailUpsertInput) (h : lastInput inputs k = some e') :
    inputKey e' = k := by
  unfold lastInput at h
  have hmem := List.mem_of_getLast?_eq_some h
  have := List.mem_filter.mp hmem
  simpa using this.2

theorem map_self {α : Type} (f : α → α) :
    ∀ l : List α, (∀ x ∈ l, f x = x) → l.map f = l
  | [], _ => rfl
  | a :: t, h => by
    rw [List.map_cons, h a (List.mem_cons_self a t),
      map_self f t (fun x hx => h x (List.mem_cons_of_mem a hx))]

/-- After a run with no rejected inputs, every key is settled: the row
holding it carries the data of the key's last input. -/
theorem batchGo_settled (reject : RejectOracle) :
    ∀ (inputs : List EmailUpsertInput) (s : Store), WFStore s →
      (∀ e ∈ inputs, reject e = none) →
      ∀ (k : String × String) (e' : EmailUpsertInput),
        lastInput inputs k = some e' →
        Synced (upsertBatchGo reject s inputs).2 e'
  | [], _, _, _, k, e', h => by
    unfold lastInput at h
    simp at h
  | e :: rest, s, hwf, hrej, k, e', h => by
    by_cases hk : inputKey e = k
    · rw [lastInput_cons_eq e rest k hk] at h
      injection h with h
      rcases hl : lastInput rest k with _ | e2
      · -- no later write: the head input settles the key and no rest input
        -- touches it again
        rw [hl] at h
        simp only [Option.getD_none] at h
        rw [← h]
        have hempty : rest.filter (fun x => inputKey x == k) = [] := by
          unfold lastInput at hl
          exact List.getLast?_eq_none_iff.mp hl
        refine batchGo_synced_other reject rest _ e
          (internal_WF reject s e hwf) ?_
          (internal_synced_own reject s e hwf (hrej e (List.mem_cons_self e rest)))
        intro x hx hxk
        have hxmem : x ∈ rest.filter (fun x => inputKey x == k) :=
          List.mem_filter.mpr ⟨hx, by simp [hxk, hk]⟩
        rw [hempty] at hxmem
        exact absurd hxmem (List.not_mem_nil x)
      · rw [hl] at h
        simp only [Option.getD_some] at h
        rw [← h]
        exact batchGo_settled reject rest _ (internal_WF reject s e hwf)
          (fun x hx => hrej x (List.mem_cons_of_mem e hx)) k e2 hl
    · rw [lastInput_cons_ne e rest k hk] at h
      exact batchGo_settled reject rest _ (internal_WF reject s e hwf)
        (fun x hx => hrej x (List.mem_cons_of_mem e hx)) k e' h

/-- The store a no-create replay produces: every row whose key the
batch writes ends up with its last writer's data. -/
def replayStore (t : Store) (inputs : List EmailUpsertInput) : Store :=
  { t with emails := t.emails.map (fun r =>
      match lastInput inputs (emailKey r) with
      | some e' => applyData r e'
      | none => r) }

theorem replayStore_nil (t : Store) : replayStore t [] = t := by
  unfold replayStore
  have hmap : t.emails.map (fun r =>
      match lastInput [] (emailKey r) with
      | some e' => applyData r e'
      | none => r) = t.emails := by
    apply map_self
    intro r _
    unfold lastInput
    simp
  rw [hmap]

/-- A batch whose keys are all already present and whose inputs are all
accepted only updates: every per-item result is a non-created success
and the final store is the pointwise replay of each key's last write. -/
theorem batchGo_replay (reject : RejectOracle) :
    ∀ (inputs : List EmailUpsertInput) (t : Store), WFStore t →
      (∀ e ∈ inputs, reject e = none) →
      (∀ e ∈ inputs, hasKey t (inputKey e)) →
      (∀ r ∈ (upsertBatchGo reject t inputs).1, r.success = true ∧ r.created = false) ∧
      (upsertBatchGo reject t inputs).2 = replayStore t inputs
  | [], t, _, _, _ => by
    refine ⟨?_, (replayStore_nil t).symm⟩
    intro r hr
    simp [upsertBatchGo] at hr
  | e :: rest, t, hwf, hrej, hkeys => by
    have hrej0 := hrej e (List.mem_cons_self e rest)
    have hk0 := hkeys e (List.mem_cons_self e rest)
    rcases hfind : t.emails.find? (keyPred e) with _ | ex
    · exfalso
      have := (hasKey_iff_find t e).mp hk0
      rw [hfind] at this
      simp at this
    · have hupd := internal_updated reject t e ex hrej0 hfind
      have hwf1 : WFStore (upsertEmailInternal reject t e).2 := internal_WF reject t e hwf
      have hkeys1 : ∀ x ∈ rest, hasKey (upsertEmailInternal reject t e).2 (inputKey x) :=
        fun x hx =>
          internal_hasKey_mono reject t e hwf _ (hkeys x (List.mem_cons_of_mem e hx))
      rcases batchGo_replay reject rest (upsertEmailInternal reject t e).2 hwf1
        (fun x hx => hrej x (List.mem_cons_of_mem e hx)) hkeys1 with ⟨ihres, ihstore⟩
      have hexmem := List.mem_of_find?_eq_some hfind
      have hexpred := List.find?_some hfind
      have hexk : emailKey ex = inputKey e := (keyPred_iff e ex).mp hexpred
      constructor
      · intro r hr
        have hshape : (upsertBatchGo reject t (e :: rest)).1 =
            (upsertEmailInternal reject t e).1 ::
              (upsertBatchGo reject (upsertEmailInternal reject t e).2 rest).1 := rfl
        rw [hshape] at hr
        rcases List.mem_cons.mp hr with rfl | ht
        · rw [hupd]
          exact ⟨rfl, rfl⟩
        · exact ihres r ht
      · have hshape2 : (upsertBatchGo reject t (e :: rest)).2 =
            (upsertBatchGo reject (upsertEmailInternal reject t e).2 rest).2 := rfl
        rw [hshape2, ihstore, hupd]
        unfold replayStore
        have hmaps : ((t.emails.map
              (fun r => if r.id == ex.id then applyData r e else r)).map
            (fun r => match lastInput rest (emailKey r) with
                      | some e' => applyData r e'
                      | none => r)) =
            t.emails.map
              (fun r => match lastInput (e :: rest) (emailKey r) with
                        | some e' => applyData r e'
                        | none => r) := by
          rw [List.map_map]
          apply List.map_congr_left
          intro r hr
          simp only [Function.comp_apply]
          by_cases hid : (r.id == ex.id) = true
          · have hre : r = ex :=
              id_inj t hwf r ex hr hexmem (by simpa using hid)
            subst hre
            rw [if_pos hid]
            rw [show emailKey (applyData r e) = emailKey r from
              applyData_key_of_pred r e hexpred]
            rw [hexk, lastInput_cons_eq e rest (inputKey e) rfl]
            rcases hl : lastInput rest (inputKey e) with _ | e2
            · simp only [Option.getD_none, applyData_applyData]
            · simp only [Option.getD_some, applyData_applyData]
          · rw [if_neg hid]
            have hrk : emailKey r ≠ inputKey e := by
              intro hh
              have hre : r = ex := key_inj t hwf r ex hr hexmem (by rw [hh, hexk])
              rw [hre] at hid
              simp at hid
            rw [lastInput_cons_ne e rest (emailKey r) (fun hh => hrk hh.symm)]
        rw [hmaps]

/-- C2: `upsertEmailsBatch` is idempotent — re-running a batch of
accepted inputs against the store the first run produced creates
nothing (`createdCount = 0`), reports no errors, marks every item a
non-created success (the update path driven by the
`(gmailId, userId)` lookup), and leaves the stored rows exactly as the
first run left them. -/
theorem claim_C2_batch_idempotent (reject : RejectOracle) (s : Store)
    (inputs : List EmailUpsertInput) (hwf : WFStore s)
    (hrej : ∀ e ∈ inputs, reject e = none) :
    (upsertEmailsBatch reject (upsertEmailsBatch reject s inputs).2 inputs).1.createdCount = 0 ∧
    (upsertEmailsBatch reject (upsertEmailsBatch reject s inputs).2 inputs).1.errors = [] ∧
    (∀ r ∈ (upsertEmailsBatch reject (upsertEmailsBatch reject s inputs).2 inputs).1.results,
        r.success = true ∧ r.created = false) ∧
    (upsertEmailsBatch reject (upsertEmailsBatch reject s inputs).2 inputs).2 =
      (upsertEmailsBatch reject s inputs).2 := by
  rcases inputs with _ | ⟨e0, rest⟩
  · refine ⟨rfl, rfl, ?_, rfl⟩
    intro r hr
    exact absurd hr (List.not_mem_nil r)
  · have hwf1 : WFStore (upsertBatchGo reject s (e0 :: rest)).2 :=
      batchGo_WF reject (e0 :: rest) s hwf
    have hkeys1 : ∀ e ∈ e0 :: rest, hasKey (upsertBatchGo reject s (e0 :: rest)).2 (inputKey e) :=
      batchGo_keys_present reject (e0 :: rest) s hwf hrej
    rcases batchGo_replay reject (e0 :: rest) (upsertBatchGo reject s (e0 :: rest)).2
      hwf1 hrej hkeys1 with ⟨hres, hstore⟩
    have hfix : replayStore (upsertBatchGo reject s (e0 :: rest)).2 (e0 :: rest) =
        (upsertBatchGo reject s (e0 :: rest)).2 := by
      unfold replayStore
      have hmap : ((upsertBatchGo reject s (e0 :: rest)).2.emails.map (fun r =>
          match lastInput (e0 :: rest) (emailKey r) with
          | some e' => applyData r e'
          | none => r)) = (upsertBatchGo reject s (e0 :: rest)).2.emails := by
        apply map_self
        intro r hr
        rcases hl : lastInput (e0 :: rest) (emailKey r) with _ | e'
        · rfl
        · exact batchGo_settled reject (e0 :: rest) s hwf hrej (emailKey r) e' hl r hr
            (lastInput_key (e0 :: rest) (emailKey r) e' hl).symm
      rw [hmap]
    rw [hfix] at hstore
    refine ⟨?_, ?_, ?_, ?_⟩
    · show ((upsertBatchGo reject (upsertBatchGo reject s (e0 :: rest)).2 (e0 :: rest)).1.filter
          (fun r => r.success && r.created)).length = 0
      rw [List.length_eq_zero, List.filter_eq_nil_iff]
      intro a ha
      rcases hres a ha with ⟨h1, h2⟩
      simp [h1, h2]
    · have hf : (upsertBatchGo reject (upsertBatchGo reject s (e0 :: rest)).2 (e0 :: rest)).1.filter
          (fun r => !r.success) = [] := by
        rw [List.filter_eq_nil_iff]
        intro a ha
        rcases hres a ha with ⟨h1, _⟩
        simp [h1]
      show ((upsertBatchGo reject (upsertBatchGo reject s (e0 :: rest)).2 (e0 :: rest)).1.filter
          (fun r => !r.success)).map
          (fun r => ({ gmailId := r.gmailId,
                       error := r.error.getD "Unknown upsert error" } : BatchError)) = []
      rw [hf]
      rfl
    · intro r hr
      exact hres r hr
    · exact hstore

def rejC2 : RejectOracle := fun _ => none

def storeC2 : Store := { users := [], threads := [], emails := [], nextId := 0 }

def inC2 : EmailUpsertInput :=
  { gmailId := "g1", threadId := 0, userId := "u1", fromAddr := "a@x", toAddr := "b@x",
    subject := "s", body := "b", htmlBody := none, timestamp := 5, isUnread := true }

theorem claim_C2_batch_idempotent_witness :
    WFStore storeC2 ∧ (∀ e ∈ [inC2], rejC2 e = none) ∧
    ((upsertEmailsBatch rejC2 (upsertEmailsBatch rejC2 storeC2 [inC2]).2 [inC2]).1.createdCount = 0 ∧
     (upsertEmailsBatch rejC2 (upsertEmailsBatch rejC2 storeC2 [inC2]).2 [inC2]).1.errors = [] ∧
     (upsertEmailsBatch rejC2 (upsertEmailsBatch rejC2 storeC2 [inC2]).2 [inC2]).2 =
       (upsertEmailsBatch rejC2 storeC2 [inC2]).2) := by
  have hwf : WFStore storeC2 :=
    ⟨by simp [storeC2], by simp [storeC2], by simp [storeC2]⟩
  have hrej : ∀ e ∈ [inC2], rejC2 e = none := by
    intro e _
    rfl
  rcases claim_C2_batch_idempotent rejC2 storeC2 [inC2] hwf hrej with ⟨h1, h2, _, h4⟩
  exact ⟨hwf, hrej, h1, h2, h4⟩

theorem batchGo_length (reject : RejectOracle) :
    ∀ (inputs : List EmailUpsertInput) (s : Store),
      (upsertBatchGo reject s inputs).1.length = inputs.length
  | [], _ => rfl
  | e :: rest, s => by
    show ((upsertEmailInternal reject s e).1 ::
        (upsertBatchGo reject (upsertEmailInternal reject s e).2 rest).1).length =
      rest.length + 1
    rw [List.length_cons, batchGo_length reject rest (upsertEmailInternal reject s e).2]

/-- A run over `l1 ++ l2` is the run over `l1` followed by the run
over `l2` from the intermediate store. -/
theorem batchGo_append (reject : RejectOracle) :
    ∀ (l1 l2 : List EmailUpsertInput) (s : Store),
      upsertBatchGo reject s (l1 ++ l2) =
        ((upsertBatchGo reject s l1).1 ++
            (upsertBatchGo reject (upsertBatchGo reject s l1).2 l2).1,
         (upsertBatchGo reject (upsertBatchGo reject s l1).2 l2).2)
  | [], l2, s => rfl
  | e :: t, l2, s => by
    have ih := batchGo_append reject t l2 (upsertEmailInternal reject s e).2
    show ((upsertEmailInternal reject s e).1 ::
          (upsertBatchGo reject (upsertEmailInternal reject s e).2 (t ++ l2)).1,
          (upsertBatchGo reject (upsertEmailInternal reject s e).2 (t ++ l2)).2) = _
    rw [ih]
    rfl

/-- A key present after one upsert step was present before, or is the
step's own key. -/
theorem internal_hasKey_cases (reject : RejectOracle) (s : Store)
    (e : EmailUpsertInput) (hwf : WFStore s) (k : String × String)
    (h : hasKey (upsertEmailInternal reject s e).2 k) :
    hasKey s k ∨ k = inputKey e := by
  rcases hrej : reject e with _ | msg
  · rcases hfind : s.emails.find? (keyPred e) with _ | ex
    · rw [internal_created reject s e hrej hfind] at h
      unfold hasKey at h
      simp only [List.map_append, List.mem_append, List.map_cons, List.map_nil,
        List.mem_singleton, newRecord_key] at h
      exact h
    · rw [internal_updated reject s e ex hrej hfind] at h
      unfold hasKey at h
      simp only at h
      rw [update_keys s e ex hwf hfind] at h
      exact .inl h
  · rw [internal_rejected reject s e msg hrej] at h
    exact .inl h

/-- A key present after a run was present before, or belongs to one of
the run's inputs. -/
theorem batchGo_hasKey_cases (reject : RejectOracle) :
    ∀ (inputs : List EmailUpsertInput) (s : Store) (k : String × String), WFStore s →
      hasKey (upsertBatchGo reject s inputs).2 k →
      hasKey s k ∨ k ∈ inputs.map inputKey
  | [], _, _, _, h => .inl h
  | e :: rest, s, k, hwf, h => by
    rcases batchGo_hasKey_cases reject rest (upsertEmailInternal reject s e).2 k
        (internal_WF reject s e hwf) h with h1 | h2
    · rcases internal_hasKey_cases reject s e hwf k h1 with ha | hb
      · exact .inl ha
      · refine .inr ?_
        rw [List.map_cons, hb]
        exact List.mem_cons_self _ _
    · refine .inr ?_
      rw [List.map_cons]
      exact List.mem_cons_of_mem _ h2

/-- A run of accepted inputs with pairwise-distinct keys all fresh for
the store takes the create path on every item. -/
theorem batchGo_creates (reject : RejectOracle) :
    ∀ (inputs : List EmailUpsertInput) (s : Store), WFStore s →
      (∀ e ∈ inputs, reject e = none) →
      (∀ e ∈ inputs, ¬ hasKey s (inputKey e)) →
      (inputs.map inputKey).Nodup →
      ∀ r ∈ (upsertBatchGo reject s inputs).1, r.success = true ∧ r.created = true
  | [], _, _, _, _, _, r, hr => absurd hr (List.not_mem_nil r)
  | e :: rest, s, hwf, hrej, hfresh, hnodup, r, hr => by
    have hrej0 := hrej e (List.mem_cons_self e rest)
    have hfind : s.emails.find? (keyPred e) = none := by
      rcases hf : s.emails.find? (keyPred e) with _ | ex
      · rfl
      · exact absurd ((hasKey_iff_find s e).mpr (by rw [hf]; rfl))
          (hfresh e (List.mem_cons_self e rest))
    have hshape : (upsertBatchGo reject s (e :: rest)).1 =
        (upsertEmailInternal reject s e).1 ::
          (upsertBatchGo reject (upsertEmailInternal reject s e).2 rest).1 := rfl
    rw [hshape] at hr
    rw [List.map_cons, List.nodup_cons] at hnodup
    rcases List.mem_cons.mp hr with rfl | ht
    · rw [internal_created reject s e hrej0 hfind]
      exact ⟨rfl, rfl⟩
    · have hfresh1 : ∀ x ∈ rest, ¬ hasKey (upsertEmailInternal reject s e).2 (inputKey x) := by
        intro x hx hk
        rcases internal_hasKey_cases reject s e hwf (inputKey x) hk with h1 | h2
        · exact hfresh x (List.mem_cons_of_mem e hx) h1
        · exact hnodup.1 (h2 ▸ List.mem_map_of_mem inputKey hx)
      exact batchGo_creates reject rest (upsertEmailInternal reject s e).2
        (internal_WF reject s e hwf)
        (fun x hx => hrej x (List.mem_cons_of_mem e hx)) hfresh1 hnodup.2 r ht

/-- C1: partial failure isolation in `upsertEmailsBatch` — when exactly
one input of a batch is rejected by the storage tier, the call still
returns a result (the embedding is a total function: no exception
escapes): its `errors` list holds exactly one entry, carrying the
failing input's `gmailId` and the failure message, every other input's
per-item result is a success, and for fresh pairwise-distinct keys
`createdCount` counts exactly the other `N - 1` inputs, all created. -/
theorem claim_C1_partial_failure (reject : RejectOracle) (s : Store)
    (pre post : List EmailUpsertInput) (bad : EmailUpsertInput) (msg : String)
    (hwf : WFStore s)
    (hbad : reject bad = some msg)
    (hok : ∀ e ∈ pre ++ post, reject e = none)
    (hfresh : ∀ e ∈ pre ++ post, ¬ hasKey s (inputKey e))
    (hnodup : ((pre ++ post).map inputKey).Nodup) :
    ∃ rs1 rs2 : List EmailUpsertResult,
      (upsertEmailsBatch reject s (pre ++ bad :: post)).1.results =
        rs1 ++ ({ gmailId := bad.gmailId, success := false, created := false,
                  email := none, error := some msg } : EmailUpsertResult) :: rs2 ∧
      rs1.length = pre.length ∧ rs2.length = post.length ∧
      (∀ r ∈ rs1 ++ rs2, r.success = true ∧ r.created = true) ∧
      (upsertEmailsBatch reject s (pre ++ bad :: post)).1.errors =
        [{ gmailId := bad.gmailId, error := msg }] ∧
      (upsertEmailsBatch reject s (pre ++ bad :: post)).1.createdCount =
        pre.length + post.length := by
  have hpre : ∀ e ∈ pre, reject e = none :=
    fun e he => hok e (List.mem_append.mpr (.inl he))
  have hpost : ∀ e ∈ post, reject e = none :=
    fun e he => hok e (List.mem_append.mpr (.inr he))
  have hfreshPre : ∀ e ∈ pre, ¬ hasKey s (inputKey e) :=
    fun e he => hfresh e (List.mem_append.mpr (.inl he))
  rw [List.map_append, List.nodup_append] at hnodup
  have hs1wf : WFStore (upsertBatchGo reject s pre).2 := batchGo_WF reject pre s hwf
  have hbadstep : upsertEmailInternal reject (upsertBatchGo reject s pre).2 bad =
      ({ gmailId := bad.gmailId, success := false, created := false,
         email := none, error := some msg }, (upsertBatchGo reject s pre).2) :=
    internal_rejected reject _ bad msg hbad
  have hmid : (upsertBatchGo reject (upsertBatchGo reject s pre).2 (bad :: post)).1 =
      ({ gmailId := bad.gmailId, success := false, created := false,
         email := none, error := some msg } : EmailUpsertResult) ::
        (upsertBatchGo reject (upsertBatchGo reject s pre).2 post).1 := by
    show ((upsertEmailInternal reject (upsertBatchGo reject s pre).2 bad).1 ::
        (upsertBatchGo reject
          (upsertEmailInternal reject (upsertBatchGo reject s pre).2 bad).2 post).1) = _
    rw [hbadstep]
  have happ := batchGo_append reject pre (bad :: post) s
  have hres1 : (upsertBatchGo reject s (pre ++ bad :: post)).1 =
      (upsertBatchGo reject s pre).1 ++
        (upsertBatchGo reject (upsertBatchGo reject s pre).2 (bad :: post)).1 :=
    congrArg Prod.fst happ
  have hresults : (upsertBatchGo reject s (pre ++ bad :: post)).1 =
      (upsertBatchGo reject s pre).1 ++
        ({ gmailId := bad.gmailId, success := false, created := false,
           email := none, error := some msg } : EmailUpsertResult) ::
          (upsertBatchGo reject (upsertBatchGo reject s pre).2 post).1 := by
    rw [hres1, hmid]
  have hR1 : ∀ r ∈ (upsertBatchGo reject s pre).1, r.success = true ∧ r.created = true :=
    batchGo_creates reject pre s hwf hpre hfreshPre hnodup.1
  have hfreshPost : ∀ e ∈ post, ¬ hasKey (upsertBatchGo reject s pre).2 (inputKey e) := by
    intro e he hk
    rcases batchGo_hasKey_cases reject pre s (inputKey e) hwf hk with h1 | h2
    · exact hfresh e (List.mem_append.mpr (.inr he)) h1
    · exact hnodup.2.2 h2 (List.mem_map_of_mem inputKey he)
  have hR2 : ∀ r ∈ (upsertBatchGo reject (upsertBatchGo reject s pre).2 post).1,
      r.success = true ∧ r.created = true :=
    batchGo_creates reject post (upsertBatchGo reject s pre).2 hs1wf hpost
      hfreshPost hnodup.2.1
  have hc : ¬((pre ++ bad :: post).isEmpty = true) := by simp
  have hbatchEq : upsertEmailsBatch reject s (pre ++ bad :: post) =
      ({ results := (upsertBatchGo reject s (pre ++ bad :: post)).1,
         createdCount := ((upsertBatchGo reject s (pre ++ bad :: post)).1.filter
           (fun r => r.success && r.created)).length,
         errors := ((upsertBatchGo reject s (pre ++ bad :: post)).1.filter
           (fun r => !r.success)).map
           (fun r => { gmailId := r.gmailId, error := r.error.getD "Unknown upsert error" }) },
       (upsertBatchGo reject s (pre ++ bad :: post)).2) := by
    unfold upsertEmailsBatch
    exact if_neg hc
  have hresultsEq : (upsertEmailsBatch reject s (pre ++ bad :: post)).1.results =
      (upsertBatchGo reject s (pre ++ bad :: post)).1 :=
    congrArg (fun p => p.1.results) hbatchEq
  have herrEq : (upsertEmailsBatch reject s (pre ++ bad :: post)).1.errors =
      ((upsertBatchGo reject s (pre ++ bad :: post)).1.filter (fun r => !r.success)).map
        (fun r => ({ gmailId := r.gmailId,
                     error := r.error.getD "Unknown upsert error" } : BatchError)) :=
    congrArg (fun p => p.1.errors) hbatchEq
  have hccEq : (upsertEmailsBatch reject s (pre ++ bad :: post)).1.createdCount =
      ((upsertBatchGo reject s (pre ++ bad :: post)).1.filter
        (fun r => r.success && r.created)).length :=
    congrArg (fun p => p.1.createdCount) hbatchEq
  refine ⟨(upsertBatchGo reject s pre).1,
    (upsertBatchGo reject (upsertBatchGo reject s pre).2 post).1, ?_, ?_, ?_, ?_, ?_, ?_⟩
  · rw [hresultsEq]
    exact hresults
  · exact batchGo_length reject pre s
  · exact batchGo_length reject post (upsertBatchGo reject s pre).2
  · intro r hr
    rcases List.mem_append.mp hr with h | h
    · exact hR1 r h
    · exact hR2 r h
  · have hf1 : (upsertBatchGo reject s pre).1.filter (fun r => !r.success) = [] := by
      rw [List.filter_eq_nil_iff]
      intro a ha
      rcases hR1 a ha with ⟨h1, _⟩
      simp [h1]
    have hf2 : (upsertBatchGo reject (upsertBatchGo reject s pre).2 post).1.filter
        (fun r => !r.success) = [] := by
      rw [List.filter_eq_nil_iff]
      intro a ha
      rcases hR2 a ha with ⟨h1, _⟩
      simp [h1]
    rw [herrEq, hresults, List.filter_append, hf1,
      List.filter_cons_of_pos (by rfl), hf2]
    rfl
  · have hg1 : (upsertBatchGo reject s pre).1.filter (fun r => r.success && r.created) =
        (upsertBatchGo reject s pre).1 := by
      rw [List.filter_eq_self]
      intro a ha
      rcases hR1 a ha with ⟨h1, h2⟩
      simp [h1, h2]
    have hg2 : (upsertBatchGo reject (upsertBatchGo reject s pre).2 post).1.filter
        (fun r => r.success && r.created) =
        (upsertBatchGo reject (upsertBatchGo reject s pre).2 post).1 := by
      rw [List.filter_eq_self]
      intro a ha
      rcases hR2 a ha with ⟨h1, h2⟩
      simp [h1, h2]
    rw [hccEq, hresults, List.filter_append, hg1,
      List.filter_cons_of_neg (by simp), hg2, List.length_append,
      batchGo_length reject pre s,
      batchGo_length reject post (upsertBatchGo reject s pre).2]

def rejC1 : RejectOracle := fun e => if e.gmailId == "bad" then some "boom" else none

def storeC1 : Store := { users := [], threads := [], emails := [], nextId := 0 }

def inA : EmailUpsertInput :=
  { gmailId := "gA", threadId := 0, userId := "u1", fromAddr := "a@x", toAddr := "b@x",
    subject := "sA", body := "bA", htmlBody := none, timestamp := 1, isUnread := true }

def inB : EmailUpsertInput :=
  { gmailId := "gB", threadId := 0, userId := "u1", fromAddr := "a@x", toAddr := "b@x",
    subject := "sB", body := "bB", htmlBody := none, timestamp := 2, isUnread := false }

def inBad : EmailUpsertInput :=
  { gmailId := "bad", threadId := 0, userId := "u1", fromAddr := "a@x", toAddr := "b@x",
    subject := "sX", body := "bX", htmlBody := none, timestamp := 3, isUnread := false }

theorem claim_C1_partial_failure_witness :
    WFStore storeC1 ∧ rejC1 inBad = some "boom" ∧
    (∀ e ∈ [inA] ++ [inB], rejC1 e = none) ∧
    (∀ e ∈ [inA] ++ [inB], ¬ hasKey storeC1 (inputKey e)) ∧
    (([inA] ++ [inB]).map inputKey).Nodup ∧
    (upsertEmailsBatch rejC1 storeC1 ([inA] ++ inBad :: [inB])).1.errors =
      [{ gmailId := inBad.gmailId, error := "boom" }] ∧
    (upsertEmailsBatch rejC1 storeC1 ([inA] ++ inBad :: [inB])).1.createdCount = 2 := by
  have hwf : WFStore storeC1 :=
    ⟨by simp [storeC1], by simp [storeC1], by simp [storeC1]⟩
  have hbad : rejC1 inBad = some "boom" := rfl
  have hok : ∀ e ∈ [inA] ++ [inB], rejC1 e = none := by decide
  have hfr : ∀ e ∈ [inA] ++ [inB], ¬ hasKey storeC1 (inputKey e) := by
    intro e he hk
    simp [storeC1, hasKey] at hk
  have hnd : (([inA] ++ [inB]).map inputKey).Nodup := by decide
  rcases claim_C1_partial_failure rejC1 storeC1 [inA] [inB] inBad "boom"
      hwf hbad hok hfr hnd with ⟨rs1, rs2, _, _, _, _, herr, hcc⟩
  exact ⟨hwf, hbad, hok, hfr, hnd, herr, hcc.trans rfl⟩

end Draftly
